import Mathlib

/-!
# unidoc: rendering a Markdown node tree as plain Unicode text

A shallow embedding of the Go package `unidoc` (renderer.go, translate*.go,
config.go, style*.go) together with theorems about it.

Modelling conventions.

* A Go `string` is modelled by the sequence of runes that ranging over it
  yields, i.e. by a Lean `String` (a list of code points).  Source text is
  taken to be well-formed UTF-8; the single place where the program slices a
  string by bytes (`line[:58]` in `renderCodeBlock`) goes through an explicit
  UTF-8 encoder and the decoder of Go (`utf8EncodeString`, `runes`).
* A Go `int` is modelled by `Int`.  The ordered-list counter, whose start value
  is a field of the node, is wrapped with `wrapInt64` where the program
  increments it or subtracts from it without a guard.  Nesting depths are
  bounded by the size of the tree and are not wrapped.
* A run-time panic (failed type assertion, index out of range, negative repeat
  count) is the result `none`.
* The writer `w` is an in-memory buffer.  Its writes do not fail, so the
  `WalkStop` / error branches of the handlers are not modelled; the buffer is
  carried in the renderer state as the field `w`.
* Functions of the Go library and of the Markdown library are not part of the
  package.  `strings.ReplaceAll`, `strings.Repeat`, `strings.TrimSpace`, the
  regular expression of `Convert`, the UTF-8 decoder and the tree walk are
  modelled from their documented behaviour; the Markdown parser and
  `unicode.ToLower` outside ASCII are parameters.
-/

namespace Unidoc

/-! ## Go primitives -/

/-- Two's-complement wrap-around of 64-bit `int` arithmetic. -/
def wrapInt64 (x : Int) : Int :=
  (x + 9223372036854775808) % 18446744073709551616 - 9223372036854775808

/-- The verb `%d` of `fmt.Sprintf`: the decimal digits of the number, preceded
by a minus sign when it is negative. -/
def fmtD : Int → String
  | Int.ofNat m => Nat.repr m
  | Int.negSucc m => "-" ++ Nat.repr (m + 1)

/-- Concatenation of `n` copies of `s`. -/
def repeatString (s : String) : Nat → String
  | 0 => ""
  | n + 1 => s ++ repeatString s n

/-- `strings.Repeat(s, count)`; panics when `count` is negative. -/
def stringsRepeat (s : String) (count : Int) : Option String :=
  if count < 0 then none else some (repeatString s count.toNat)

/-- Slice indexing `xs[i]`; panics when the index is out of range. -/
def index {α : Type} (xs : List α) (i : Int) : Option α :=
  if i < 0 then none else xs[i.toNat]?

/-- Scan of `strings.ReplaceAll` for a non-empty pattern `old`: the leftmost
occurrence is replaced, the scan resumes right after it.  The first argument
counts the characters of a matched occurrence that are still to be skipped. -/
def replaceAllAux (old new : List Char) : Nat → List Char → List Char
  | _, [] => []
  | skip + 1, _ :: cs => replaceAllAux old new skip cs
  | 0, c :: cs =>
    if old.isPrefixOf (c :: cs) then new ++ replaceAllAux old new (old.length - 1) cs
    else c :: replaceAllAux old new 0 cs

/-- `strings.ReplaceAll(s, old, new)`, for non-empty `old`. -/
def stringsReplaceAll (s old new : String) : String :=
  ⟨replaceAllAux old.data new.data 0 s.data⟩

/-- `strings.TrimRight(s, "\n")`. -/
def trimRightNewlines (s : List Char) : List Char :=
  (s.reverse.dropWhile (fun c => c == '\n')).reverse

/-- `strings.Split(s, "\n")`. -/
def splitLines : List Char → List (List Char)
  | [] => [[]]
  | c :: cs =>
    if c = '\n' then [] :: splitLines cs
    else
      match splitLines cs with
      | l :: ls => (c :: l) :: ls
      | [] => [[c]]

/-! ### UTF-8 -/

/-- UTF-8 encoding of one code point, as a list of byte values. -/
def utf8EncodeChar (c : Char) : List Nat :=
  let n := c.toNat
  if n < 0x80 then [n]
  else if n < 0x800 then [0xC0 + n / 64, 0x80 + n % 64]
  else if n < 0x10000 then [0xE0 + n / 4096, 0x80 + n / 64 % 64, 0x80 + n % 64]
  else [0xF0 + n / 262144, 0x80 + n / 4096 % 64, 0x80 + n / 64 % 64, 0x80 + n % 64]

/-- The bytes of a string. -/
def utf8EncodeString (s : String) : List Nat :=
  s.data.flatMap utf8EncodeChar

/-- `utf8.RuneError`. -/
def RuneError : Char := Char.ofNat 0xFFFD

/-- `utf8.DecodeRuneInString`: the first rune of a byte sequence and its width
in bytes.  An invalid or truncated encoding yields `RuneError` with width 1. -/
def decodeRune : List Nat → Char × Nat
  | [] => (RuneError, 0)
  | s0 :: rest =>
    if s0 < 0x80 then (Char.ofNat s0, 1)
    else if s0 < 0xC2 then (RuneError, 1)
    else if s0 < 0xE0 then
      match rest with
      | s1 :: _ =>
        if 0x80 ≤ s1 ∧ s1 ≤ 0xBF then (Char.ofNat (s0 % 32 * 64 + s1 % 64), 2)
        else (RuneError, 1)
      | [] => (RuneError, 1)
    else if s0 < 0xF0 then
      let lo := if s0 = 0xE0 then 0xA0 else 0x80
      let hi := if s0 = 0xED then 0x9F else 0xBF
      match rest with
      | s1 :: s2 :: _ =>
        if lo ≤ s1 ∧ s1 ≤ hi ∧ 0x80 ≤ s2 ∧ s2 ≤ 0xBF then
          (Char.ofNat (s0 % 16 * 4096 + s1 % 64 * 64 + s2 % 64), 3)
        else (RuneError, 1)
      | _ => (RuneError, 1)
    else if s0 < 0xF5 then
      let lo := if s0 = 0xF0 then 0x90 else 0x80
      let hi := if s0 = 0xF4 then 0x8F else 0xBF
      match rest with
      | s1 :: s2 :: s3 :: _ =>
        if lo ≤ s1 ∧ s1 ≤ hi ∧ 0x80 ≤ s2 ∧ s2 ≤ 0xBF ∧ 0x80 ≤ s3 ∧ s3 ≤ 0xBF then
          (Char.ofNat (s0 % 8 * 262144 + s1 % 64 * 4096 + s2 % 64 * 64 + s3 % 64), 4)
        else (RuneError, 1)
      | _ => (RuneError, 1)
    else (RuneError, 1)

/-- Runes of a byte sequence, decoded one after the other; the first argument
bounds the number of runes. -/
def runesAux : Nat → List Nat → List Char
  | 0, _ => []
  | _ + 1, [] => []
  | fuel + 1, b :: bs =>
    let d := decodeRune (b :: bs)
    d.1 :: runesAux fuel ((b :: bs).drop d.2)

/-- The runes that ranging over a Go string with the given bytes yields. -/
def runes (bs : List Nat) : String :=
  ⟨runesAux bs.length bs⟩

/-! ## Style tables (translate.go, translatebold.go, translatescript.go,
translateslantedsans.go) -/

/-- Function `translateMap`: every rune that is a key of `m` is replaced by its
value, every other rune is kept (`strings.Map`). -/
def translateMap (s : String) (m : List (Char × Char)) : String :=
  ⟨s.data.map fun inp =>
    match m.lookup inp with
    | some out => out
    | none => inp⟩

/-- The map literal of `toBoldSansSerifText`. -/
def boldSansSerifMap : List (Char × Char) := [
  ('A', Char.ofNat 0x1D5D4), ('B', Char.ofNat 0x1D5D5), ('C', Char.ofNat 0x1D5D6),
  ('D', Char.ofNat 0x1D5D7), ('E', Char.ofNat 0x1D5D8), ('F', Char.ofNat 0x1D5D9),
  ('G', Char.ofNat 0x1D5DA), ('H', Char.ofNat 0x1D5DB), ('I', Char.ofNat 0x1D5DC),
  ('J', Char.ofNat 0x1D5DD), ('K', Char.ofNat 0x1D5DE), ('L', Char.ofNat 0x1D5DF),
  ('M', Char.ofNat 0x1D5E0), ('N', Char.ofNat 0x1D5E1), ('O', Char.ofNat 0x1D5E2),
  ('P', Char.ofNat 0x1D5E3), ('Q', Char.ofNat 0x1D5E4), ('R', Char.ofNat 0x1D5E5),
  ('S', Char.ofNat 0x1D5E6), ('T', Char.ofNat 0x1D5E7), ('U', Char.ofNat 0x1D5E8),
  ('V', Char.ofNat 0x1D5E9), ('W', Char.ofNat 0x1D5EA), ('X', Char.ofNat 0x1D5EB),
  ('Y', Char.ofNat 0x1D5EC), ('Z', Char.ofNat 0x1D5ED),
  ('a', Char.ofNat 0x1D5EE), ('b', Char.ofNat 0x1D5EF), ('c', Char.ofNat 0x1D5F0),
  ('d', Char.ofNat 0x1D5F1), ('e', Char.ofNat 0x1D5F2), ('f', Char.ofNat 0x1D5F3),
  ('g', Char.ofNat 0x1D5F4), ('h', Char.ofNat 0x1D5F5), ('i', Char.ofNat 0x1D5F6),
  ('j', Char.ofNat 0x1D5F7), ('k', Char.ofNat 0x1D5F8), ('l', Char.ofNat 0x1D5F9),
  ('m', Char.ofNat 0x1D5FA), ('n', Char.ofNat 0x1D5FB), ('o', Char.ofNat 0x1D5FC),
  ('p', Char.ofNat 0x1D5FD), ('q', Char.ofNat 0x1D5FE), ('r', Char.ofNat 0x1D5FF),
  ('s', Char.ofNat 0x1D600), ('t', Char.ofNat 0x1D601), ('u', Char.ofNat 0x1D602),
  ('v', Char.ofNat 0x1D603), ('w', Char.ofNat 0x1D604), ('x', Char.ofNat 0x1D605),
  ('y', Char.ofNat 0x1D606), ('z', Char.ofNat 0x1D607),
  ('0', Char.ofNat 0x1D7EC), ('1', Char.ofNat 0x1D7ED), ('2', Char.ofNat 0x1D7EE),
  ('3', Char.ofNat 0x1D7EF), ('4', Char.ofNat 0x1D7F0), ('5', Char.ofNat 0x1D7F1),
  ('6', Char.ofNat 0x1D7F2), ('7', Char.ofNat 0x1D7F3), ('8', Char.ofNat 0x1D7F4),
  ('9', Char.ofNat 0x1D7F5)]

/-- Function `toBoldSansSerifText`. -/
def toBoldSansSerifText (text : String) : String :=
  translateMap text boldSansSerifMap

/-- The map literal of `toItalicScriptText`. -/
def italicScriptMap : List (Char × Char) := [
  ('A', Char.ofNat 0x1D49C), ('B', Char.ofNat 0x1D4B7), ('C', Char.ofNat 0x1D49E),
  ('D', Char.ofNat 0x1D49F), ('E', Char.ofNat 0x2130), ('F', Char.ofNat 0x2131),
  ('G', Char.ofNat 0x1D4A2), ('H', Char.ofNat 0x210B), ('I', Char.ofNat 0x2110),
  ('J', Char.ofNat 0x1D4A5), ('K', Char.ofNat 0x1D4A6), ('L', Char.ofNat 0x2112),
  ('M', Char.ofNat 0x2133), ('N', Char.ofNat 0x1D4A9), ('O', Char.ofNat 0x1D4AA),
  ('P', Char.ofNat 0x1D4AB), ('Q', Char.ofNat 0x1D4AC), ('R', Char.ofNat 0x211B),
  ('S', Char.ofNat 0x1D4AE), ('T', Char.ofNat 0x1D4AF), ('U', Char.ofNat 0x1D4B0),
  ('V', Char.ofNat 0x1D4B1), ('W', Char.ofNat 0x1D4B2), ('X', Char.ofNat 0x1D4B3),
  ('Y', Char.ofNat 0x1D4B4), ('Z', Char.ofNat 0x1D4B5),
  ('a', Char.ofNat 0x1D4B6), ('b', Char.ofNat 0x1D4B7), ('c', Char.ofNat 0x1D4B8),
  ('d', Char.ofNat 0x1D4B9), ('e', Char.ofNat 0x212F), ('f', Char.ofNat 0x1D4BB),
  ('g', Char.ofNat 0x210A), ('h', Char.ofNat 0x1D4BD), ('i', Char.ofNat 0x1D4BE),
  ('j', Char.ofNat 0x1D4BF), ('k', Char.ofNat 0x1D4C0), ('l', Char.ofNat 0x1D4C1),
  ('m', Char.ofNat 0x1D4C2), ('n', Char.ofNat 0x1D4C3), ('o', Char.ofNat 0x2134),
  ('p', Char.ofNat 0x1D4C5), ('q', Char.ofNat 0x1D4C6), ('r', Char.ofNat 0x1D4C7),
  ('s', Char.ofNat 0x1D4C8), ('t', Char.ofNat 0x1D4C9), ('u', Char.ofNat 0x1D4CA),
  ('v', Char.ofNat 0x1D4CB), ('w', Char.ofNat 0x1D4CC), ('x', Char.ofNat 0x1D4CD),
  ('y', Char.ofNat 0x1D4CE), ('z', Char.ofNat 0x1D4CF)]

/-- Function `toItalicScriptText`. -/
def toItalicScriptText (text : String) : String :=
  translateMap text italicScriptMap

/-- The map literal of `toSlantedSansSerifText`. -/
def slantedSansSerifMap : List (Char × Char) := [
  ('A', Char.ofNat 0x1D608), ('B', Char.ofNat 0x1D609), ('C', Char.ofNat 0x1D60A),
  ('D', Char.ofNat 0x1D60B), ('E', Char.ofNat 0x1D60C), ('F', Char.ofNat 0x1D60D),
  ('G', Char.ofNat 0x1D60E), ('H', Char.ofNat 0x1D60F), ('I', Char.ofNat 0x1D610),
  ('J', Char.ofNat 0x1D611), ('K', Char.ofNat 0x1D612), ('L', Char.ofNat 0x1D613),
  ('M', Char.ofNat 0x1D614), ('N', Char.ofNat 0x1D615), ('O', Char.ofNat 0x1D616),
  ('P', Char.ofNat 0x1D617), ('Q', Char.ofNat 0x1D618), ('R', Char.ofNat 0x1D619),
  ('S', Char.ofNat 0x1D61A), ('T', Char.ofNat 0x1D61B), ('U', Char.ofNat 0x1D61C),
  ('V', Char.ofNat 0x1D61D), ('W', Char.ofNat 0x1D61E), ('X', Char.ofNat 0x1D61F),
  ('Y', Char.ofNat 0x1D620), ('Z', Char.ofNat 0x1D621),
  ('a', Char.ofNat 0x1D622), ('b', Char.ofNat 0x1D623), ('c', Char.ofNat 0x1D624),
  ('d', Char.ofNat 0x1D625), ('e', Char.ofNat 0x1D626), ('f', Char.ofNat 0x1D627),
  ('g', Char.ofNat 0x1D628), ('h', Char.ofNat 0x1D629), ('i', Char.ofNat 0x1D62A),
  ('j', Char.ofNat 0x1D62B), ('k', Char.ofNat 0x1D62C), ('l', Char.ofNat 0x1D62D),
  ('m', Char.ofNat 0x1D62E), ('n', Char.ofNat 0x1D62F), ('o', Char.ofNat 0x1D630),
  ('p', Char.ofNat 0x1D631), ('q', Char.ofNat 0x1D632), ('r', Char.ofNat 0x1D633),
  ('s', Char.ofNat 0x1D634), ('t', Char.ofNat 0x1D635), ('u', Char.ofNat 0x1D636),
  ('v', Char.ofNat 0x1D637), ('w', Char.ofNat 0x1D638), ('x', Char.ofNat 0x1D639),
  ('y', Char.ofNat 0x1D63A), ('z', Char.ofNat 0x1D63B)]

/-- Function `toSlantedSansSerifText`. -/
def toSlantedSansSerifText (text : String) : String :=
  translateMap text slantedSansSerifMap

/-! ## Smart punctuation and ordered-list markers (renderer.go) -/

/-- Method `toSmartDashes`: `---` becomes an em dash, then `--` an en dash. -/
def toSmartDashes (text : String) : String :=
  stringsReplaceAll (stringsReplaceAll text "---" "—") "--" "–"

/-- Table `circledNums` of `getCircledNumber`. -/
def circledNums : List String := [
  "①", "②", "③", "④", "⑤", "⑥", "⑦", "⑧", "⑨", "⑩",
  "⑪", "⑫", "⑬", "⑭", "⑮", "⑯", "⑰", "⑱", "⑲", "⑳"]

/-- Method `getCircledNumber`. -/
def getCircledNumber (num : Int) : Option String :=
  if num ≥ 1 ∧ num ≤ 20 then index circledNums (num - 1)
  else some ("⓪" ++ fmtD num)

/-- Table `parenNums` of `getParenthesizedNumber`. -/
def parenNums : List String := [
  "⑴", "⑵", "⑶", "⑷", "⑸", "⑹", "⑺", "⑻", "⑼", "⑽",
  "⑾", "⑿", "⒀", "⒁", "⒂", "⒃", "⒄", "⒅", "⒆", "⒇"]

/-- Method `getParenthesizedNumber`. -/
def getParenthesizedNumber (num : Int) : Option String :=
  if num ≥ 1 ∧ num ≤ 20 then index parenNums (num - 1)
  else some ("(" ++ fmtD num ++ ")")

/-- Table `circledLetters` of `getCircledLetter`. -/
def circledLetters : List String := [
  "🅐", "🅑", "🅒", "🅓", "🅔", "🅕", "🅖", "🅗", "🅘", "🅙",
  "🅚", "🅛", "🅜", "🅝", "🅞", "🅟", "🅠", "🅡", "🅢", "🅣",
  "🅤", "🅥", "🅦", "🅧", "🅨", "🅩"]

/-- Method `getCircledLetter`.  Go's `%` and `/` truncate towards zero. -/
def getCircledLetter (num : Int) : Option String :=
  if num ≥ 1 ∧ num ≤ 26 then index circledLetters (num - 1)
  else
    match index circledLetters (Int.tmod (wrapInt64 (num - 1)) 26) with
    | none => none
    | some letter =>
      let cycle := Int.tdiv (wrapInt64 (num - 1)) 26 + 1
      if cycle > 1 then some (letter ++ "·" ++ fmtD cycle)
      else some letter

/-- Table `lowerRoman` of `getRomanNumeral`. -/
def lowerRoman : List String := [
  "ⅰ", "ⅱ", "ⅲ", "ⅳ", "ⅴ", "ⅵ", "ⅶ", "ⅷ", "ⅸ", "ⅹ", "ⅺ", "ⅻ"]

/-- Table `upperRoman` of `getRomanNumeral`. -/
def upperRoman : List String := [
  "Ⅰ", "Ⅱ", "Ⅲ", "Ⅳ", "Ⅴ", "Ⅵ", "Ⅶ", "Ⅷ", "Ⅸ", "Ⅹ", "Ⅺ", "Ⅻ"]

/-- Method `getRomanNumeral`. -/
def getRomanNumeral (num : Int) (uppercase : Bool) : Option String :=
  if num ≤ 0 ∨ num > 50 then
    if uppercase then some ("Ⅻ·" ++ fmtD num)
    else some ("ⅻ·" ++ fmtD num)
  else if num ≤ 12 then
    if uppercase then index upperRoman (num - 1)
    else index lowerRoman (num - 1)
  else if uppercase then some ("Ⅻ+" ++ fmtD (num - 12))
  else some ("ⅻ+" ++ fmtD (num - 12))

/-- Method `getOrderedMarker`. -/
def getOrderedMarker (num : Int) (level : Int) : Option String :=
  if level = 1 then getCircledNumber num
  else if level = 2 then getParenthesizedNumber num
  else if level = 3 then getCircledLetter num
  else if level = 4 then getRomanNumeral num false
  else if level = 5 then getRomanNumeral num true
  else some ("⟨" ++ fmtD num ++ "⟩")

/-! ## Configuration (config.go, styleitalic.go, stylestrong.go) -/

/-- Type `ItalicStyle`, an `int`. -/
abbrev ItalicStyle := Int

/-- Type `StrongStyle`, an `int`. -/
abbrev StrongStyle := Int

def ItalicStylePlain : ItalicStyle := 0
def ItalicStyleMarkers : ItalicStyle := 1
def ItalicStyleScript : ItalicStyle := 2
def ItalicStyleSlantedSansSerif : ItalicStyle := 3

def StrongStylePlain : StrongStyle := 0
def StrongStyleMarkers : StrongStyle := 1
def StrongStyleBoldSansSerif : StrongStyle := 2

/-- Structure `Config`. -/
structure Config where
  italicStyle : ItalicStyle
  strongStyle : StrongStyle
deriving DecidableEq, Repr

/-- Function `DefaultConfig`. -/
def DefaultConfig : Config :=
  { italicStyle := ItalicStyleSlantedSansSerif, strongStyle := StrongStyleBoldSansSerif }

/-! ## The node tree handed over by the parser -/

/-- Kind of a node with the payload the renderer reads from it.  For a list,
`isOrdered` is the result of the method `IsOrdered` and `start` the field
`Start`; for a text node, `value` is the bytes of its segment and
`hardLineBreak` the result of `HardLineBreak`; for a fenced code block,
`lines` are the segments of its lines. -/
inductive NodeKind where
  | document
  | heading (level : Int)
  | paragraph
  | list (isOrdered : Bool) (start : Int)
  | listItem
  | blockquote
  | codeBlock
  | fencedCodeBlock (lines : List String)
  | htmlBlock
  | thematicBreak
  | text (value : String) (hardLineBreak : Bool)
  | emphasis (level : Int)
  | codeSpan
  | link (destination : String)
  | image (destination : String) (title : String)
  | autoLink
  | rawHTML
  | textBlock
deriving DecidableEq, Repr

/-- A node of the tree: its kind and its children in document order. -/
inductive Node where
  | mk (kind : NodeKind) (children : List Node)

/-- Kind of a node. -/
def Node.kind : Node → NodeKind
  | .mk k _ => k

/-- Children of a node (`FirstChild` / `NextSibling`). -/
def Node.children : Node → List Node
  | .mk _ cs => cs

/-- Result `gast.WalkStatus` of a handler. -/
inductive WalkStatus where
  | WalkContinue
  | WalkSkipChildren
deriving DecidableEq, Repr

open WalkStatus

/-! ## The renderer (renderer.go) -/

/-- Structure `UnicodeRenderer`, with the output buffer `w` that every handler
receives.  The two stacks grow at the end, as Go's `append` does. -/
structure UnicodeRenderer where
  config : Config
  listLevel : Int
  blockquoteLevel : Int
  inHeader : Bool
  inStrong : Bool
  inItalic : Bool
  inListItem : Bool
  inBlockquote : Bool
  listNumbers : List Int
  isOrdered : List Bool
  w : String
deriving DecidableEq, Repr

/-- Function `NewUnicodeRenderer`, writing to an empty buffer. -/
def NewUnicodeRenderer (config : Config) : UnicodeRenderer :=
  { config := config, listLevel := 0, blockquoteLevel := 0, inHeader := false,
    inStrong := false, inItalic := false, inListItem := false, inBlockquote := false,
    listNumbers := [], isOrdered := [], w := "" }

/-- `w.WriteString(s)`. -/
def UnicodeRenderer.WriteString (r : UnicodeRenderer) (s : String) : UnicodeRenderer :=
  { r with w := r.w ++ s }

/-- Method `renderDocument`. -/
def renderDocument (r : UnicodeRenderer) (_node : Node) (_entering : Bool) :
    Option (WalkStatus × UnicodeRenderer) :=
  some (WalkContinue, r)

/-- Method `renderHeading`. -/
def renderHeading (r : UnicodeRenderer) (node : Node) (entering : Bool) :
    Option (WalkStatus × UnicodeRenderer) :=
  match node.kind with
  | .heading level =>
    if entering then
      let r := { r with inHeader := true }
      let glyph :=
        if level = 1 then "█"
        else if level = 2 then "▓"
        else if level = 3 then "▒"
        else if level = 4 then "░"
        else if level = 5 then "▫"
        else "▪"
      let repeated := if level > 1 ∧ level < 5 then stringsRepeat glyph level else some glyph
      match repeated with
      | none => none
      | some pre => some (WalkContinue, r.WriteString (pre ++ " "))
    else
      let r := { r with inHeader := false }
      let r :=
        if level ≤ 2 then
          let r := r.WriteString "\n"
          let char := if level = 2 then "─" else "═"
          r.WriteString (repeatString char 50)
        else r
      some (WalkContinue, r.WriteString "\n\n")
  | _ => none

/-- Method `renderParagraph`. -/
def renderParagraph (r : UnicodeRenderer) (_node : Node) (entering : Bool) :
    Option (WalkStatus × UnicodeRenderer) :=
  if !entering then
    if !r.inListItem then some (WalkContinue, r.WriteString "\n\n")
    else some (WalkContinue, r)
  else some (WalkContinue, r)

/-- The styling part of `renderText` (the smart-dash pass and the `switch` on
the context flags): the text that the handler writes for a text run. -/
def styleText (r : UnicodeRenderer) (value : String) : String :=
  let text := toSmartDashes value
  if r.inHeader then toBoldSansSerifText text
  else if r.inStrong then
    if r.config.strongStyle = StrongStylePlain then text
    else if r.config.strongStyle = StrongStyleMarkers then "**" ++ text ++ "**"
    else if r.config.strongStyle = StrongStyleBoldSansSerif then toBoldSansSerifText text
    else text
  else if r.inItalic then
    if r.config.italicStyle = ItalicStylePlain then text
    else if r.config.italicStyle = ItalicStyleMarkers then "*" ++ text ++ "*"
    else if r.config.italicStyle = ItalicStyleScript then toItalicScriptText text
    else if r.config.italicStyle = ItalicStyleSlantedSansSerif then toSlantedSansSerifText text
    else text
  else text

/-- Method `renderText`. -/
def renderText (r : UnicodeRenderer) (node : Node) (entering : Bool) :
    Option (WalkStatus × UnicodeRenderer) :=
  if !entering then some (WalkContinue, r)
  else
    match node.kind with
    | .text value hardLineBreak =>
      let r := r.WriteString (styleText r value)
      if hardLineBreak then
        let r := r.WriteString "\n"
        if r.inBlockquote then
          match stringsRepeat "┃ " r.blockquoteLevel with
          | none => none
          | some pre => some (WalkContinue, r.WriteString pre)
        else if r.inListItem then
          match stringsRepeat "  " r.listLevel with
          | none => none
          | some indent => some (WalkContinue, r.WriteString indent)
        else some (WalkContinue, r)
      else some (WalkContinue, r)
    | _ => none

/-- Method `renderEmphasis`. -/
def renderEmphasis (r : UnicodeRenderer) (node : Node) (entering : Bool) :
    Option (WalkStatus × UnicodeRenderer) :=
  match node.kind with
  | .emphasis level =>
    if level > 1 then some (WalkContinue, { r with inStrong := entering })
    else some (WalkContinue, { r with inItalic := entering })
  | _ => none

/-- Method `renderList`. -/
def renderList (r : UnicodeRenderer) (node : Node) (entering : Bool) :
    Option (WalkStatus × UnicodeRenderer) :=
  match node.kind with
  | .list isOrdered start =>
    if entering then
      let r := if r.listLevel > 0 then r.WriteString "\n" else r
      let r := { r with listLevel := r.listLevel + 1 }
      let r := { r with isOrdered := r.isOrdered ++ [isOrdered] }
      if isOrdered then
        let start := if start = 0 then 1 else start
        some (WalkContinue, { r with listNumbers := r.listNumbers ++ [start] })
      else
        some (WalkContinue, { r with listNumbers := r.listNumbers ++ [0] })
    else
      let r := { r with listLevel := r.listLevel - 1 }
      let r := if r.isOrdered.length > 0 then { r with isOrdered := r.isOrdered.dropLast } else r
      let r :=
        if r.listNumbers.length > 0 then { r with listNumbers := r.listNumbers.dropLast } else r
      if r.listLevel = 0 then some (WalkContinue, r.WriteString "\n")
      else some (WalkContinue, r)
  | _ => none

/-- Bullet palette `bullets` of `renderListItem`. -/
def bullets : List String := ["•", "◦", "▪", "▫", "‣", "⁃"]

/-- Method `renderListItem`. -/
def renderListItem (r : UnicodeRenderer) (node : Node) (entering : Bool) :
    Option (WalkStatus × UnicodeRenderer) :=
  if entering then
    let r := { r with inListItem := true }
    match stringsRepeat "  " (r.listLevel - 1) with
    | none => none
    | some indent =>
      let isCurrentOrdered := decide (r.isOrdered.length > 0) && r.isOrdered.getLast?.getD false
      if isCurrentOrdered then
        match r.listNumbers.getLast? with
        | none => none
        | some currentNum =>
          let r := { r with listNumbers := r.listNumbers.dropLast ++ [wrapInt64 (currentNum + 1)] }
          match getOrderedMarker currentNum r.listLevel with
          | none => none
          | some marker => some (WalkContinue, r.WriteString (indent ++ marker ++ " "))
      else
        match index bullets (Int.tmod (r.listLevel - 1) bullets.length) with
        | none => none
        | some bullet => some (WalkContinue, r.WriteString (indent ++ bullet ++ " "))
  else
    let r := { r with inListItem := false }
    let hasParaChild := node.children.any (fun child => child.kind = NodeKind.paragraph)
    if hasParaChild then some (WalkContinue, r.WriteString "\n\n")
    else some (WalkContinue, r.WriteString "\n")

/-- Method `renderBlockquote`. -/
def renderBlockquote (r : UnicodeRenderer) (_node : Node) (entering : Bool) :
    Option (WalkStatus × UnicodeRenderer) :=
  if entering then
    let r := { r with blockquoteLevel := r.blockquoteLevel + 1 }
    match stringsRepeat "┃ " r.blockquoteLevel with
    | none => none
    | some pre => some (WalkContinue, r.WriteString pre)
  else
    let r := { r with blockquoteLevel := r.blockquoteLevel - 1 }
    some (WalkContinue, r.WriteString "\n\n")

/-- One content row of the box of `renderCodeBlock` (the body of the loop over
the lines).  `line[:58]` takes the first 58 bytes of the line. -/
def codeBlockRow (line : String) : Option String :=
  let line := stringsReplaceAll line "\t" "    "
  let line :=
    if line.length > 58 then
      runes ((utf8EncodeString line).take 58 ++ utf8EncodeString "…")
    else line
  let padding : Int := 64 - line.length
  match stringsRepeat " " (padding - 2) with
  | none => none
  | some pad => some ("│ " ++ line ++ pad ++ " │\n")

/-- Rows of the box for the given lines, in order. -/
def codeBlockRows : List String → Option String
  | [] => some ""
  | line :: rest =>
    match codeBlockRow line with
    | none => none
    | some row =>
      match codeBlockRows rest with
      | none => none
      | some rows => some (row ++ rows)

/-- Segment of a direct child that is a text node, empty for any other child. -/
def textSegment (child : Node) : String :=
  match child.kind with
  | .text value _ => value
  | _ => ""

/-- Method `renderCodeBlock`, registered for code blocks and fenced code blocks. -/
def renderCodeBlock (r : UnicodeRenderer) (node : Node) (entering : Bool) :
    Option (WalkStatus × UnicodeRenderer) :=
  if !entering then some (WalkContinue, r)
  else
    let code : String :=
      match node.kind with
      | .fencedCodeBlock ls => String.join ls
      | _ => String.join (node.children.map textSegment)
    let lines := (splitLines (trimRightNewlines code.data)).map String.mk
    let r := r.WriteString ("┌" ++ repeatString "─" 64 ++ "┐\n")
    match codeBlockRows lines with
    | none => none
    | some rows =>
      let r := r.WriteString rows
      some (WalkSkipChildren, r.WriteString ("└" ++ repeatString "─" 64 ++ "┘\n\n"))

/-- Method `renderCodeSpan`. -/
def renderCodeSpan (r : UnicodeRenderer) (_node : Node) (entering : Bool) :
    Option (WalkStatus × UnicodeRenderer) :=
  if entering then some (WalkContinue, r.WriteString "⌜")
  else some (WalkContinue, r.WriteString "⌝")

/-- Method `renderLink`. -/
def renderLink (r : UnicodeRenderer) (node : Node) (entering : Bool) :
    Option (WalkStatus × UnicodeRenderer) :=
  if entering then some (WalkContinue, r.WriteString "[")
  else
    match node.kind with
    | .link url => some (WalkContinue, r.WriteString ("] 🔗 <" ++ url ++ ">"))
    | _ => none

/-- Method `renderImage`. -/
def renderImage (r : UnicodeRenderer) (node : Node) (entering : Bool) :
    Option (WalkStatus × UnicodeRenderer) :=
  if entering then
    match node.kind with
    | .image url title =>
      let alt := if title = "" then "Image" else title
      some (WalkSkipChildren, r.WriteString ("🖼️  " ++ alt ++ " <" ++ url ++ ">"))
    | _ => none
  else some (WalkSkipChildren, r)

/-- Method `renderThematicBreak`. -/
def renderThematicBreak (r : UnicodeRenderer) (_node : Node) (entering : Bool) :
    Option (WalkStatus × UnicodeRenderer) :=
  if entering then some (WalkContinue, r.WriteString ("\n" ++ repeatString "═" 60 ++ "\n\n"))
  else some (WalkContinue, r)

/-- Method `renderAutoLink`. -/
def renderAutoLink (r : UnicodeRenderer) (node : Node) (entering : Bool) :
    Option (WalkStatus × UnicodeRenderer) :=
  renderLink r node entering

/-- Method `renderRawHTML`. -/
def renderRawHTML (r : UnicodeRenderer) (_node : Node) (_entering : Bool) :
    Option (WalkStatus × UnicodeRenderer) :=
  some (WalkSkipChildren, r)

/-- Method `renderHTMLBlock`. -/
def renderHTMLBlock (r : UnicodeRenderer) (_node : Node) (_entering : Bool) :
    Option (WalkStatus × UnicodeRenderer) :=
  some (WalkSkipChildren, r)

/-- Method `renderTextBlock`. -/
def renderTextBlock (r : UnicodeRenderer) (_node : Node) (_entering : Bool) :
    Option (WalkStatus × UnicodeRenderer) :=
  some (WalkContinue, r)

/-- Dispatch by node kind, as registered in `RegisterFuncs`. -/
def renderNode (r : UnicodeRenderer) (node : Node) (entering : Bool) :
    Option (WalkStatus × UnicodeRenderer) :=
  match node.kind with
  | .document => renderDocument r node entering
  | .heading _ => renderHeading r node entering
  | .paragraph => renderParagraph r node entering
  | .list _ _ => renderList r node entering
  | .listItem => renderListItem r node entering
  | .blockquote => renderBlockquote r node entering
  | .codeBlock => renderCodeBlock r node entering
  | .fencedCodeBlock _ => renderCodeBlock r node entering
  | .htmlBlock => renderHTMLBlock r node entering
  | .thematicBreak => renderThematicBreak r node entering
  | .text _ _ => renderText r node entering
  | .emphasis _ => renderEmphasis r node entering
  | .codeSpan => renderCodeSpan r node entering
  | .link _ => renderLink r node entering
  | .image _ _ => renderImage r node entering
  | .autoLink => renderAutoLink r node entering
  | .rawHTML => renderRawHTML r node entering
  | .textBlock => renderTextBlock r node entering

mutual

/-- Depth-first walk of the tree in document order (the walk of the parser
library that drives the handlers): the handler of a node is called on entering,
then its children are walked unless the handler asked to skip them, then the
handler is called on exiting. -/
def walk : Node → UnicodeRenderer → Option UnicodeRenderer
  | .mk kind children, r =>
    match renderNode r (.mk kind children) true with
    | none => none
    | some (status, r1) =>
      match (if status = WalkSkipChildren then some r1 else walkChildren children r1) with
      | none => none
      | some r2 =>
        match renderNode r2 (.mk kind children) false with
        | none => none
        | some (_, r3) => some r3

/-- Walk of a list of siblings, in order. -/
def walkChildren : List Node → UnicodeRenderer → Option UnicodeRenderer
  | [], r => some r
  | child :: rest, r =>
    match walk child r with
    | none => none
    | some r1 => walkChildren rest r1

end

/-- Rendering of a document tree with a fresh renderer: the text written by
the walk, or `none` when a handler panics. -/
def render (config : Config) (doc : Node) : Option String :=
  (walk doc (NewUnicodeRenderer config)).map (fun r => r.w)

/-! ## The entry point `Convert` (renderer.go) -/

/-- Scan of `regexp.MustCompile("\n{3,}").ReplaceAllString(s, "\n\n")`: the
leftmost match at a position is the whole run of newlines that starts there
(the repetition is greedy), provided the run has at least three of them; it is
replaced by two newlines and the scan resumes right after the run.  The first
argument counts the characters of a matched run that are still to be skipped. -/
def collapseAux : Nat → List Char → List Char
  | _, [] => []
  | skip + 1, _ :: cs => collapseAux skip cs
  | 0, c :: cs =>
    let n := ((c :: cs).takeWhile (fun x => x == '\n')).length
    if n ≥ 3 then '\n' :: '\n' :: collapseAux (n - 1) cs
    else c :: collapseAux 0 cs

/-- The clean-up pass of `Convert`: every match of `\n{3,}` becomes `"\n\n"`. -/
def collapseNewlines (s : String) : String :=
  ⟨collapseAux 0 s.data⟩

/-- `unicode.IsSpace`: the code points with the Unicode property White_Space. -/
def isSpace (c : Char) : Bool :=
  let n := c.toNat
  (0x09 ≤ n && n ≤ 0x0D) || n == 0x20 || n == 0x85 || n == 0xA0 || n == 0x1680 ||
    (0x2000 ≤ n && n ≤ 0x200A) || n == 0x2028 || n == 0x2029 || n == 0x202F ||
    n == 0x205F || n == 0x3000

/-- `strings.TrimSpace`: the string without its leading and trailing white
space. -/
def stringsTrimSpace (s : String) : String :=
  ⟨((s.data.dropWhile isSpace).reverse.dropWhile isSpace).reverse⟩

/-- Function `Convert`.  The parser of the Markdown library, which turns the
input into the node tree, is the parameter `parse`; the tree is rendered with
a fresh renderer, then newlines are collapsed and the result is trimmed. -/
def Convert (parse : String → Node) (inp : String) (config : Config) : Option String :=
  match render config (parse inp) with
  | none => none
  | some result => some (stringsTrimSpace (collapseNewlines result))

/-! ## Parsing of the style selectors (styleitalic.go, stylestrong.go) -/

/-- Method `ItalicStyle.UnmarshalText`: the value of `*s` after the call and
the error, if any. -/
def ItalicStyle.UnmarshalText (s : ItalicStyle) (text : String) : ItalicStyle × Option String :=
  if text = "plain" then (ItalicStylePlain, none)
  else if text = "markers" then (ItalicStyleMarkers, none)
  else if text = "script" then (ItalicStyleScript, none)
  else if text = "slanted-sans-serif" then (ItalicStyleSlantedSansSerif, none)
  else (s, some ("invalid italic style: " ++ text))

/-- `strings.ToLower`: an ASCII capital letter becomes the small letter, any
other ASCII character is kept, and a character outside ASCII is mapped by
`unicode.ToLower`, the parameter `unicodeToLower`. -/
def stringsToLower (unicodeToLower : Char → Char) (s : String) : String :=
  ⟨s.data.map fun c =>
    if 'A' ≤ c ∧ c ≤ 'Z' then Char.ofNat (c.toNat + 32)
    else if c.toNat < 0x80 then c
    else unicodeToLower c⟩

/-- Method `StrongStyle.UnmarshalText`: the value of `*s` after the call and
the error, if any.  The text is lower-cased before it is compared. -/
def StrongStyle.UnmarshalText (unicodeToLower : Char → Char) (s : StrongStyle) (text : String) :
    StrongStyle × Option String :=
  let lowered := stringsToLower unicodeToLower text
  if lowered = "plain" then (StrongStylePlain, none)
  else if lowered = "markers" then (StrongStyleMarkers, none)
  else if lowered = "bold-sans-serif" then (StrongStyleBoldSansSerif, none)
  else (s, some ("invalid strong style: " ++ text))

/-! ## Vocabulary of the statements -/

/-- The string made of the single code point `n`. -/
def glyph (n : Nat) : String := String.singleton (Char.ofNat n)

/-- The string made of `n` spaces. -/
def spaces (n : Nat) : String := ⟨List.replicate n ' '⟩

/-- The counter of an ordered list after one more item. -/
def bump (x : Int) : Int := wrapInt64 (x + 1)

/-- The start value that `renderList` pushes for a list. -/
def startValue (isOrdered : Bool) (start : Int) : Int :=
  if isOrdered then (if start = 0 then 1 else start) else 0

mutual

/-- Shape of the trees that the parser builds, as far as lists go: list items
occur only as the children of lists, and the children of a list are list
items.  `wellNested n` holds when this is so below `n` and `n` itself is not a
list item. -/
def wellNested : Node → Bool
  | .mk kind children =>
    match kind with
    | .listItem => false
    | .list _ _ => wellNestedItems children
    | _ => wellNestedChildren children

/-- Every node of the list is `wellNested`. -/
def wellNestedChildren : List Node → Bool
  | [] => true
  | child :: rest => wellNested child && wellNestedChildren rest

/-- Every node of the list is a list item whose children are `wellNested`. -/
def wellNestedItems : List Node → Bool
  | [] => true
  | .mk kind children :: rest =>
    decide (kind = NodeKind.listItem) && wellNestedChildren children && wellNestedItems rest

end

/-- The list-nesting part of the state (depth and both stacks) is the same in
both states. -/
def SameFrame (r r' : UnicodeRenderer) : Prop :=
  r'.listLevel = r.listLevel ∧ r'.isOrdered = r.isOrdered ∧ r'.listNumbers = r.listNumbers

/-- Effect of walking `n` items of a list on the list-nesting part of the
state: only the counter on top of the stack moves, by `n` steps, and only when
the innermost list is ordered. -/
def ItemsFrame (n : Nat) (r r' : UnicodeRenderer) : Prop :=
  r'.listLevel = r.listLevel ∧ r'.isOrdered = r.isOrdered ∧
  (r.isOrdered.getLast? = some true → ∀ base c, r.listNumbers = base ++ [c] →
    r'.listNumbers = base ++ [bump^[n] c]) ∧
  (r.isOrdered.getLast? ≠ some true → r'.listNumbers = r.listNumbers)

/-! ### Example trees and states -/

/-- A text node without hard line break. -/
def plainText (value : String) : Node := .mk (.text value false) []

/-- A tight list item holding one line of text followed by the given blocks. -/
def tightItem (value : String) (blocks : List Node) : Node :=
  .mk .listItem (.mk .textBlock [plainText value] :: blocks)

/-- Two nested unordered lists, one item each. -/
def exampleBulletList : Node :=
  .mk (.list false 0) [tightItem "a" [.mk (.list false 0) [tightItem "b" []]]]

/-- An ordered list starting at 3 whose first item holds a nested ordered list. -/
def exampleOrderedList : Node :=
  .mk (.list true 3) [
    tightItem "a" [.mk (.list true 0) [tightItem "p" [], tightItem "q" []]],
    tightItem "b" []]

/-- State in which the items of `exampleOrderedList` are walked, when the list
is the only block of a document. -/
def exampleEntered : UnicodeRenderer :=
  { NewUnicodeRenderer DefaultConfig with listLevel := 1, listNumbers := [3], isOrdered := [true] }

/-- State after the walk of the first item of `exampleOrderedList`. -/
def exampleAfterFirstItem : UnicodeRenderer :=
  { exampleEntered with listNumbers := [4], w := "③ a\n  ⑴ p\n  ⑵ q\n\n" }

/-! ### Smart dashes on lists of code points -/

/-- First pass of `toSmartDashes` on the code points of the text. -/
def replaceTriple (l : List Char) : List Char :=
  replaceAllAux "---".data "—".data 0 l

/-- Second pass of `toSmartDashes` on the code points of the text. -/
def replacePair (l : List Char) : List Char :=
  replaceAllAux "--".data "–".data 0 l

/-- What a maximal run of `n` hyphens is expected to become: an em dash for
each full group of three, then an en dash for two left-over hyphens and a
hyphen for one. -/
def dashRun (n : Nat) : List Char :=
  List.replicate (n / 3) '—' ++
    (if n % 3 = 2 then ['–'] else if n % 3 = 1 then ['-'] else [])

/-- The text neither is empty nor starts with a hyphen, or it is empty. -/
def NoLeadingHyphen (l : List Char) : Prop := l.head? ≠ some '-'

/-- The text does not end with a hyphen. -/
def NoTrailingHyphen (l : List Char) : Prop := l.getLast? ≠ some '-'

/-! ### Style tables -/

/-- The Latin letters A–Z and a–z. -/
def latinLetters : List Char :=
  "ABCDEFGHIJKLMNOPQRSTUVWXYZabcdefghijklmnopqrstuvwxyz".data

/-- The digits 0–9. -/
def asciiDigits : List Char := "0123456789".data

/-- The tree that the parser builds for the paragraph
`**bold** and *italic*`: a strong span, a text run and an italic span. -/
def exampleEmphasis : Node :=
  .mk .document [.mk .paragraph [
    .mk (.emphasis 2) [plainText "bold"],
    plainText " and ",
    .mk (.emphasis 1) [plainText "italic"]]]

/-- A state inside a heading that is also inside a strong and an italic span,
with the marker styles configured. -/
def exampleInHeading : UnicodeRenderer :=
  { NewUnicodeRenderer { italicStyle := ItalicStyleMarkers, strongStyle := StrongStyleMarkers }
    with inHeader := true, inStrong := true, inItalic := true }

/-! ### Headings, code blocks and the entry point -/

/-- The tree that the parser builds for `# Hello`. -/
def exampleHeading : Node :=
  .mk .document [.mk (.heading 1) [plainText "Hello"]]

/-- The tree that the parser builds for the paragraph `<https://example.com>`:
an automatic link holding the text of the address. -/
def exampleAutoLink : Node :=
  .mk .document [.mk .paragraph [.mk .autoLink [plainText "https://example.com"]]]

/-- The letter of the Unicode script alphabet for a Latin letter: the `k`-th
capital is U+1D49C + k and the `k`-th small letter U+1D4B6 + k, except at the
positions that the block reserves, whose letters are in Letterlike Symbols. -/
def scriptLetter (c : Char) : Char :=
  if c = 'B' then Char.ofNat 0x212C
  else if c = 'E' then Char.ofNat 0x2130
  else if c = 'F' then Char.ofNat 0x2131
  else if c = 'H' then Char.ofNat 0x210B
  else if c = 'I' then Char.ofNat 0x2110
  else if c = 'L' then Char.ofNat 0x2112
  else if c = 'M' then Char.ofNat 0x2133
  else if c = 'R' then Char.ofNat 0x211B
  else if c = 'e' then Char.ofNat 0x212F
  else if c = 'g' then Char.ofNat 0x210A
  else if c = 'o' then Char.ofNat 0x2134
  else if 'A' ≤ c ∧ c ≤ 'Z' then Char.ofNat (0x1D49C + (c.toNat - 0x41))
  else if 'a' ≤ c ∧ c ≤ 'z' then Char.ofNat (0x1D4B6 + (c.toNat - 0x61))
  else c

/-- The tree that the parser builds for the blockquote `> a` (ending in a hard
line break) followed by `> b`: one paragraph with two text runs. -/
def exampleQuoteHardBreak : Node :=
  .mk .document [.mk .blockquote [.mk .paragraph [.mk (.text "a" true) [], plainText "b"]]]

/-- A code-block line after each tab has been expanded to four spaces. -/
def expandTabs (line : String) : String :=
  stringsReplaceAll line "\t" "    "

/-- What `renderCodeBlock` puts between the borders for a line, before the
padding: the expanded line, or its first 58 bytes and an ellipsis when it has
more than 58 code points. -/
def rowContent (line : String) : String :=
  if (expandTabs line).length > 58 then
    runes ((utf8EncodeString (expandTabs line)).take 58 ++ utf8EncodeString "…")
  else expandTabs line

/-- The row of the box for a line, without its final newline. -/
def boxRow (line : String) : String :=
  "│ " ++ rowContent line ++ spaces (62 - (rowContent line).length) ++ " │"

/-- Top border of the box, without its final newline. -/
def boxTop : String := "┌" ++ repeatString "─" 64 ++ "┐"

/-- Bottom border of the box, without the newlines that follow it. -/
def boxBottom : String := "└" ++ repeatString "─" 64 ++ "┘"

/-- The given lines, each followed by a newline. -/
def concatLines : List String → String
  | [] => ""
  | l :: ls => l ++ "\n" ++ concatLines ls

/-- The lines of the content of a code block, as `renderCodeBlock` extracts
them from the node. -/
def codeBlockLines (node : Node) : List String :=
  let code : String :=
    match node.kind with
    | .fencedCodeBlock ls => String.join ls
    | _ => String.join (node.children.map textSegment)
  (splitLines (trimRightNewlines code.data)).map String.mk

/-- The text is empty or starts with a character other than a newline. -/
def NoLeadingNewline (l : List Char) : Prop := l.head? ≠ some '\n'

/-- The text does not end with a newline. -/
def NoTrailingNewline (l : List Char) : Prop := l.getLast? ≠ some '\n'

/-- What a maximal run of `n` newlines is expected to become: two newlines
when it has three or more, itself otherwise. -/
def newlineRun (n : Nat) : List Char :=
  List.replicate (if n ≥ 3 then 2 else n) '\n'

/-- Three nested ordered lists, one item each; the innermost list starts at
`start`. -/
def exampleThreeOrdered (start : Int) : Node :=
  .mk .document [
    .mk (.list true 1) [
      .mk .listItem [
        .mk .textBlock [plainText "a"],
        .mk (.list true 1) [
          .mk .listItem [
            .mk .textBlock [plainText "b"],
            .mk (.list true start) [
              .mk .listItem [.mk .textBlock [plainText "c"]]]]]]]]

/-- The context flag that a node of the given kind sets on entry, if any. -/
def contextFlag : NodeKind → Option (UnicodeRenderer → Bool)
  | .heading _ => some (fun r => r.inHeader)
  | .emphasis level => if level > 1 then some (fun r => r.inStrong) else some (fun r => r.inItalic)
  | .listItem => some (fun r => r.inListItem)
  | _ => none

/-- A strong span inside a strong span, as in `**a **b** c**`. -/
def exampleNestedStrong : Node :=
  .mk .document [.mk .paragraph [
    .mk (.emphasis 2) [plainText "a ", .mk (.emphasis 2) [plainText "b"], plainText " c"]]]

/-- A list item that holds a nested list followed by a paragraph. -/
def exampleNestedItem : Node :=
  .mk .document [.mk (.list false 0) [
    .mk .listItem [
      .mk .paragraph [plainText "a"],
      .mk (.list false 0) [.mk .listItem [.mk .paragraph [plainText "b"]]],
      .mk .paragraph [plainText "c"]]]]

/-- A renderer inside a strong span. -/
def exampleInStrong : UnicodeRenderer :=
  { NewUnicodeRenderer DefaultConfig with inStrong := true }

/-- A renderer inside an item of a list. -/
def exampleInItem : UnicodeRenderer :=
  { NewUnicodeRenderer DefaultConfig with
    inListItem := true, listLevel := 1, isOrdered := [false], listNumbers := [0] }

/-! ### Events of a walk -/

/-- Kinds whose handler asks the walk to skip the children of the node. -/
def skipsChildren : NodeKind → Bool
  | .codeBlock => true
  | .fencedCodeBlock _ => true
  | .htmlBlock => true
  | .image _ _ => true
  | .rawHTML => true
  | _ => false

mutual

/-- The enter and exit events of the walk of a tree, in order: a node is
entered, its children are walked unless its handler skips them, and the node is
exited. -/
def events : Node → List (Node × Bool)
  | .mk kind children =>
    (.mk kind children, true) ::
      ((if skipsChildren kind then [] else eventsList children) ++ [(.mk kind children, false)])

/-- The events of the walk of a list of siblings. -/
def eventsList : List Node → List (Node × Bool)
  | [] => []
  | child :: rest => events child ++ eventsList rest

end

/-- The handlers called on a sequence of events, one after the other. -/
def runEvents : List (Node × Bool) → UnicodeRenderer → Option UnicodeRenderer
  | [], r => some r
  | (node, entering) :: rest, r =>
    match renderNode r node entering with
    | none => none
    | some (_, r1) => runEvents rest r1

/-- The list-nesting depth and the two stacks of `r'` are those of `r`, `d`
levels deeper. -/
def ListDepth (r r' : UnicodeRenderer) (d : Nat) : Prop :=
  r'.listLevel = r.listLevel + d ∧ r'.isOrdered.length = r.isOrdered.length + d ∧
    r'.listNumbers.length = r.listNumbers.length + d

/-- Number of levels that a node of the given kind opens: one for a list. -/
def listStep : NodeKind → Nat
  | .list _ _ => 1
  | _ => 0

/-- A document holding `exampleBulletList`. -/
def exampleListDocument : Node := .mk .document [exampleBulletList]

/-- State after the first four events of the walk of `exampleListDocument`:
inside the text block of the first item. -/
def exampleAfterFourEvents : UnicodeRenderer :=
  { NewUnicodeRenderer DefaultConfig with
    listLevel := 1, isOrdered := [false], listNumbers := [0], inListItem := true, w := "• " }

/-! ## Theorems -/

theorem index_circledNums (m : Int) (h0 : 0 ≤ m) (h1 : m < 20) :
    index circledNums m = some (glyph (0x2460 + m.toNat)) := by
  interval_cases m <;> decide

theorem index_parenNums (m : Int) (h0 : 0 ≤ m) (h1 : m < 20) :
    index parenNums m = some (glyph (0x2474 + m.toNat)) := by
  interval_cases m <;> decide

theorem index_circledLetters (m : Int) (h0 : 0 ≤ m) (h1 : m < 26) :
    index circledLetters m = some (glyph (0x1F150 + m.toNat)) := by
  interval_cases m <;> decide

theorem index_lowerRoman (m : Int) (h0 : 0 ≤ m) (h1 : m < 12) :
    index lowerRoman m = some (glyph (0x2170 + m.toNat)) := by
  interval_cases m <;> decide

theorem index_upperRoman (m : Int) (h0 : 0 ≤ m) (h1 : m < 12) :
    index upperRoman m = some (glyph (0x2160 + m.toNat)) := by
  interval_cases m <;> decide

theorem wrapInt64_of_range (x : Int) (h0 : -9223372036854775808 ≤ x)
    (h1 : x ≤ 9223372036854775807) : wrapInt64 x = x := by
  unfold wrapInt64; omega

/-- Level-1 markers, the form shared by the theorems on ordered lists. -/
theorem level1_marker (n : Int) :
    (1 ≤ n ∧ n ≤ 20 → getOrderedMarker n 1 = some (glyph (0x2460 + (n - 1).toNat))) ∧
    (¬ (1 ≤ n ∧ n ≤ 20) → getOrderedMarker n 1 = some ("⓪" ++ fmtD n)) := by
  constructor
  · intro h
    simp only [getOrderedMarker, getCircledNumber, if_true, ge_iff_le, h, and_self]
    exact index_circledNums _ (by omega) (by omega)
  · intro h
    simp only [getOrderedMarker, getCircledNumber, if_true, ge_iff_le, h, if_false]

/-- C6: at nesting level 1 the ordered marker of `n` is the single circled
numeral U+2460 + (n - 1) when 1 ≤ n ≤ 20, and for every other `n` (above 20,
zero or negative) the fallback "⓪" followed by the decimal digits of `n`. -/
theorem C6_level1_circled_number (n : Int) :
    (1 ≤ n ∧ n ≤ 20 → getOrderedMarker n 1 = some (glyph (0x2460 + (n - 1).toNat))) ∧
    (¬ (1 ≤ n ∧ n ≤ 20) → getOrderedMarker n 1 = some ("⓪" ++ fmtD n)) ∧
    getOrderedMarker 1 1 = some "①" ∧ getOrderedMarker 20 1 = some "⑳" ∧
    getOrderedMarker 21 1 = some "⓪21" ∧ getOrderedMarker 0 1 = some "⓪0" ∧
    getOrderedMarker (-3) 1 = some "⓪-3" := by
  refine ⟨?_, ?_, by decide, by decide, by decide, by decide, by decide⟩
  · intro h
    simp only [getOrderedMarker, getCircledNumber, if_true, ge_iff_le, h, and_self]
    exact index_circledNums _ (by omega) (by omega)
  · intro h
    simp only [getOrderedMarker, getCircledNumber, if_true, ge_iff_le, h, if_false]

/-- Witness of C6 at n = 7 (a circled numeral) and n = 25 (the fallback). -/
theorem C6_level1_circled_number_witness :
    getOrderedMarker 7 1 = some (glyph (0x2460 + 6)) ∧
    getOrderedMarker 25 1 = some ("⓪" ++ fmtD 25) :=
  ⟨(C6_level1_circled_number 7).1 (by decide), (C6_level1_circled_number 25).2.1 (by decide)⟩

/-- C7: at nesting level 2 the ordered marker of `n` is the single
parenthesized numeral U+2474 + (n - 1) when 1 ≤ n ≤ 20 and "(n)" in ASCII
parentheses for every other `n`; at every nesting level outside 1..5 the
marker is "⟨" followed by the decimal digits of `n` and "⟩". -/
theorem C7_level2_and_fallback_level (n : Int) :
    (1 ≤ n ∧ n ≤ 20 → getOrderedMarker n 2 = some (glyph (0x2474 + (n - 1).toNat))) ∧
    (¬ (1 ≤ n ∧ n ≤ 20) → getOrderedMarker n 2 = some ("(" ++ fmtD n ++ ")")) ∧
    (∀ level : Int, level < 1 ∨ level ≥ 6 →
      getOrderedMarker n level = some ("⟨" ++ fmtD n ++ "⟩")) ∧
    getOrderedMarker 1 2 = some "⑴" ∧ getOrderedMarker 20 2 = some "⒇" ∧
    getOrderedMarker 21 2 = some "(21)" ∧ getOrderedMarker 3 6 = some "⟨3⟩" := by
  refine ⟨?_, ?_, ?_, by decide, by decide, by decide, by decide⟩
  · intro h
    simp only [getOrderedMarker, getParenthesizedNumber, ge_iff_le, h, and_self, if_true]
    simp only [show ¬ ((2 : Int) = 1) by decide, if_false]
    exact index_parenNums _ (by omega) (by omega)
  · intro h
    simp only [getOrderedMarker, getParenthesizedNumber, ge_iff_le, h, if_false, if_true]
    simp only [show ¬ ((2 : Int) = 1) by decide, if_false]
  · intro level h
    unfold getOrderedMarker
    rw [if_neg (by omega), if_neg (by omega), if_neg (by omega), if_neg (by omega),
      if_neg (by omega)]

/-- Witness of C7 at n = 7 and n = 25 on level 2, and at level 9. -/
theorem C7_level2_and_fallback_level_witness :
    getOrderedMarker 7 2 = some (glyph (0x2474 + 6)) ∧
    getOrderedMarker 25 2 = some ("(" ++ fmtD 25 ++ ")") ∧
    getOrderedMarker 25 9 = some ("⟨" ++ fmtD 25 ++ "⟩") :=
  ⟨(C7_level2_and_fallback_level 7).1 (by decide),
   (C7_level2_and_fallback_level 25).2.1 (by decide),
   (C7_level2_and_fallback_level 25).2.2.1 9 (by decide)⟩

/-- C8: at nesting level 3, for every `n ≥ 1` (a 64-bit `int`) the ordered
marker is the circled letter U+1F150 + ((n - 1) mod 26), alone when n ≤ 26 and
followed by "·" and the decimal cycle number (n - 1) / 26 + 1 when n > 26. -/
theorem C8_level3_circled_letter (n : Int) (h1 : 1 ≤ n) (hmax : n ≤ 9223372036854775807) :
    getOrderedMarker n 3 =
      some (if n ≤ 26 then glyph (0x1F150 + ((n - 1) % 26).toNat)
        else glyph (0x1F150 + ((n - 1) % 26).toNat) ++ "·" ++ fmtD ((n - 1) / 26 + 1)) ∧
    getOrderedMarker 26 3 = some "🅩" ∧ getOrderedMarker 27 3 = some "🅐·2" ∧
    getOrderedMarker 53 3 = some "🅐·3" := by
  refine ⟨?_, by decide, by decide, by decide⟩
  unfold getOrderedMarker
  rw [if_neg (by decide), if_neg (by decide), if_pos rfl]
  unfold getCircledLetter
  by_cases h : n ≤ 26
  · rw [if_pos ⟨h1, h⟩, if_pos h]
    have hm : (n - 1) % 26 = n - 1 := by omega
    rw [hm]
    exact index_circledLetters _ (by omega) (by omega)
  · rw [if_neg (by omega), if_neg h, wrapInt64_of_range _ (by omega) (by omega),
      Int.tmod_eq_emod (by omega) (by decide), Int.tdiv_eq_ediv (by omega) (by decide),
      index_circledLetters _ (by omega) (by omega)]
    simp only []
    rw [if_pos (by omega)]

/-- Witness of C8 at n = 30. -/
theorem C8_level3_circled_letter_witness :
    getOrderedMarker 30 3 =
      some (if (30 : Int) ≤ 26 then glyph (0x1F150 + ((30 - 1 : Int) % 26).toNat)
        else glyph (0x1F150 + ((30 - 1 : Int) % 26).toNat) ++ "·" ++
          fmtD ((30 - 1) / 26 + 1)) :=
  (C8_level3_circled_letter 30 (by decide) (by decide)).1

/-- C9: at nesting level 4 (lowercase) and 5 (uppercase) the ordered marker of
`n` is the single Roman numeral U+2170 + (n - 1), resp. U+2160 + (n - 1), when
1 ≤ n ≤ 12; "ⅻ+", resp. "Ⅻ+", followed by the decimal digits of n - 12 when
13 ≤ n ≤ 50; and "ⅻ·", resp. "Ⅻ·", followed by the decimal digits of `n` when
n ≤ 0 or n > 50.  In every case the level-5 marker is the level-4 marker with
its Roman glyph (its first code point `g`, a small Roman numeral) replaced by
the capital one, `g - 16`. -/
theorem C9_level4_level5_roman (n : Int) :
    (1 ≤ n ∧ n ≤ 12 →
      getOrderedMarker n 4 = some (glyph (0x2170 + (n - 1).toNat)) ∧
      getOrderedMarker n 5 = some (glyph (0x2160 + (n - 1).toNat))) ∧
    (13 ≤ n ∧ n ≤ 50 →
      getOrderedMarker n 4 = some ("ⅻ+" ++ fmtD (n - 12)) ∧
      getOrderedMarker n 5 = some ("Ⅻ+" ++ fmtD (n - 12))) ∧
    (n ≤ 0 ∨ n > 50 →
      getOrderedMarker n 4 = some ("ⅻ·" ++ fmtD n) ∧
      getOrderedMarker n 5 = some ("Ⅻ·" ++ fmtD n)) ∧
    (∃ g rest, 0x2170 ≤ g ∧ g ≤ 0x217B ∧
      getOrderedMarker n 4 = some (glyph g ++ rest) ∧
      getOrderedMarker n 5 = some (glyph (g - 16) ++ rest)) := by
  have e4 : getOrderedMarker n 4 = getRomanNumeral n false := by
    unfold getOrderedMarker
    rw [if_neg (by decide), if_neg (by decide), if_neg (by decide), if_pos rfl]
  have e5 : getOrderedMarker n 5 = getRomanNumeral n true := by
    unfold getOrderedMarker
    rw [if_neg (by decide), if_neg (by decide), if_neg (by decide), if_neg (by decide),
      if_pos rfl]
  have hlow : (1 ≤ n ∧ n ≤ 12 →
      getOrderedMarker n 4 = some (glyph (0x2170 + (n - 1).toNat)) ∧
      getOrderedMarker n 5 = some (glyph (0x2160 + (n - 1).toNat))) := by
    intro h
    rw [e4, e5]
    have hc : ¬ (n ≤ 0 ∨ n > 50) := by omega
    simp only [getRomanNumeral, hc, h.2, if_true, if_false, Bool.false_eq_true]
    exact ⟨index_lowerRoman _ (by omega) (by omega), index_upperRoman _ (by omega) (by omega)⟩
  have hmid : (13 ≤ n ∧ n ≤ 50 →
      getOrderedMarker n 4 = some ("ⅻ+" ++ fmtD (n - 12)) ∧
      getOrderedMarker n 5 = some ("Ⅻ+" ++ fmtD (n - 12))) := by
    intro h
    rw [e4, e5]
    have hc : ¬ (n ≤ 0 ∨ n > 50) := by omega
    have hd : ¬ (n ≤ 12) := by omega
    simp only [getRomanNumeral, hc, hd, if_true, if_false, Bool.false_eq_true, and_self]
  have hout : (n ≤ 0 ∨ n > 50 →
      getOrderedMarker n 4 = some ("ⅻ·" ++ fmtD n) ∧
      getOrderedMarker n 5 = some ("Ⅻ·" ++ fmtD n)) := by
    intro h
    rw [e4, e5]
    simp only [getRomanNumeral, h, if_true, if_false, Bool.false_eq_true, and_self]
  refine ⟨hlow, hmid, hout, ?_⟩
  by_cases ho : n ≤ 0 ∨ n > 50
  · refine ⟨0x217B, "·" ++ fmtD n, by decide, by decide, ?_, ?_⟩
    · rw [(hout ho).1, ← String.append_assoc]; rfl
    · rw [(hout ho).2, ← String.append_assoc]; rfl
  · by_cases hl : n ≤ 12
    · refine ⟨0x2170 + (n - 1).toNat, "", by omega, by omega, ?_, ?_⟩
      · rw [(hlow ⟨by omega, hl⟩).1, String.append_empty]
      · rw [(hlow ⟨by omega, hl⟩).2, String.append_empty]
        congr 2
        omega
    · refine ⟨0x217B, "+" ++ fmtD (n - 12), by decide, by decide, ?_, ?_⟩
      · rw [(hmid ⟨by omega, by omega⟩).1, ← String.append_assoc]; rfl
      · rw [(hmid ⟨by omega, by omega⟩).2, ← String.append_assoc]; rfl

/-- Witness of C9 at n = 5, n = 20 and n = 51. -/
theorem C9_level4_level5_roman_witness :
    (getOrderedMarker 5 4 = some (glyph (0x2170 + 4)) ∧
      getOrderedMarker 5 5 = some (glyph (0x2160 + 4))) ∧
    (getOrderedMarker 20 4 = some ("ⅻ+" ++ fmtD (20 - 12)) ∧
      getOrderedMarker 20 5 = some ("Ⅻ+" ++ fmtD (20 - 12))) ∧
    (getOrderedMarker 51 4 = some ("ⅻ·" ++ fmtD 51) ∧
      getOrderedMarker 51 5 = some ("Ⅻ·" ++ fmtD 51)) :=
  ⟨(C9_level4_level5_roman 5).1 (by decide), (C9_level4_level5_roman 20).2.1 (by decide),
   (C9_level4_level5_roman 51).2.2.1 (by decide)⟩

theorem SameFrame.refl (r : UnicodeRenderer) : SameFrame r r := ⟨rfl, rfl, rfl⟩

theorem SameFrame.trans {a b c : UnicodeRenderer} (h1 : SameFrame a b) (h2 : SameFrame b c) :
    SameFrame a c :=
  ⟨h2.1.trans h1.1, h2.2.1.trans h1.2.1, h2.2.2.trans h1.2.2⟩

theorem SameFrame.writeString (r : UnicodeRenderer) (s : String) :
    SameFrame r (r.WriteString s) := ⟨rfl, rfl, rfl⟩

theorem renderText_frame (r r' : UnicodeRenderer) (n : Node) (e : Bool) (st : WalkStatus)
    (h : renderText r n e = some (st, r')) : SameFrame r r' := by
  simp only [renderText] at h
  repeat' split at h
  all_goals first
    | contradiction
    | (cases h; exact ⟨rfl, rfl, rfl⟩)

theorem renderNode_frame (r r' : UnicodeRenderer) (k : NodeKind) (cs : List Node) (e : Bool)
    (st : WalkStatus) (hk : k ≠ .listItem) (hk2 : ∀ o s, k ≠ .list o s)
    (h : renderNode r (.mk k cs) e = some (st, r')) : SameFrame r r' := by
  cases k <;> simp only [renderNode, Node.kind] at h
  case listItem => exact absurd rfl hk
  case list o s => exact absurd rfl (hk2 o s)
  case text v hb => exact renderText_frame _ _ _ _ _ h
  all_goals
    simp only [renderDocument, renderHeading, renderParagraph, renderEmphasis,
      renderBlockquote, renderCodeBlock, renderCodeSpan, renderLink, renderImage,
      renderThematicBreak, renderAutoLink, renderRawHTML, renderHTMLBlock, renderTextBlock,
      Node.kind] at h
    repeat' split at h
    all_goals first
      | contradiction
      | (cases h; exact ⟨rfl, rfl, rfl⟩)

theorem bump_iterate (c : Int) (h0 : -9223372036854775808 ≤ c) (h1 : c ≤ 9223372036854775807)
    (n : Nat) : bump^[n] c = wrapInt64 (c + n) := by
  induction n with
  | zero => simp [wrapInt64_of_range c h0 h1]
  | succ n ih =>
    rw [Function.iterate_succ_apply', ih]
    unfold bump wrapInt64
    push_cast
    omega

theorem renderList_enter (r : UnicodeRenderer) (o : Bool) (s : Int) (cs : List Node) :
    ∃ r1, renderList r (.mk (.list o s) cs) true = some (WalkContinue, r1) ∧
      r1.listLevel = r.listLevel + 1 ∧ r1.isOrdered = r.isOrdered ++ [o] ∧
      r1.listNumbers = r.listNumbers ++ [startValue o s] ∧
      r1.w = (if r.listLevel > 0 then r.w ++ "\n" else r.w) := by
  cases o <;> by_cases h : r.listLevel > 0 <;>
    simp [renderList, Node.kind, startValue, UnicodeRenderer.WriteString, h]

theorem renderList_exit_eq (r : UnicodeRenderer) (o : Bool) (s : Int) (cs : List Node) :
    ∃ r1, renderList r (.mk (.list o s) cs) false = some (WalkContinue, r1) ∧
      r1.listLevel = r.listLevel - 1 ∧ r1.isOrdered = r.isOrdered.dropLast ∧
      r1.listNumbers = r.listNumbers.dropLast := by
  by_cases h1 : r.isOrdered.length > 0 <;> by_cases h2 : r.listNumbers.length > 0 <;>
    by_cases h3 : r.listLevel - 1 = 0 <;>
    simp [renderList, Node.kind, UnicodeRenderer.WriteString, h1, h2, h3] <;>
    simp_all

theorem renderList_exit (r r' : UnicodeRenderer) (o : Bool) (s : Int) (cs : List Node)
    (st : WalkStatus) (h : renderList r (.mk (.list o s) cs) false = some (st, r')) :
    r'.listLevel = r.listLevel - 1 ∧ r'.isOrdered = r.isOrdered.dropLast ∧
      r'.listNumbers = r.listNumbers.dropLast := by
  obtain ⟨r1, e, p⟩ := renderList_exit_eq r o s cs
  rw [e] at h
  cases h
  exact p

theorem isCurrentOrdered_eq (l : List Bool) :
    (decide (l.length > 0) && l.getLast?.getD false) = true ↔ l.getLast? = some true := by
  cases h : l.getLast? with
  | none => simp
  | some b =>
    have : l ≠ [] := by
      intro hl; rw [hl] at h; simp at h
    have hlen : 0 < l.length := List.length_pos.mpr this
    cases b <;> simp [hlen]

theorem renderListItem_enter_frame (r r' : UnicodeRenderer) (n : Node) (st : WalkStatus)
    (h : renderListItem r n true = some (st, r')) :
    r'.listLevel = r.listLevel ∧ r'.isOrdered = r.isOrdered ∧
      ((r.isOrdered.getLast? = some true ∧ ∃ c, r.listNumbers.getLast? = some c ∧
          r'.listNumbers = r.listNumbers.dropLast ++ [bump c]) ∨
        (r.isOrdered.getLast? ≠ some true ∧ r'.listNumbers = r.listNumbers)) := by
  simp only [renderListItem, if_true] at h
  split at h
  · cases h
  · split at h
    · rename_i hord
      have hord2 := (isCurrentOrdered_eq _).mp hord
      split at h
      · cases h
      · rename_i c hc
        split at h
        · cases h
        · cases h
          exact ⟨rfl, rfl, Or.inl ⟨hord2, c, hc, rfl⟩⟩
    · rename_i hord
      have hord2 : r.isOrdered.getLast? ≠ some true := fun hh =>
        hord ((isCurrentOrdered_eq _).mpr hh)
      split at h
      · cases h
      · cases h
        exact ⟨rfl, rfl, Or.inr ⟨hord2, rfl⟩⟩

theorem renderListItem_exit_frame (r r' : UnicodeRenderer) (n : Node) (st : WalkStatus)
    (h : renderListItem r n false = some (st, r')) : SameFrame r r' := by
  simp only [renderListItem, Bool.false_eq_true, if_false] at h
  split at h <;> (cases h; exact ⟨rfl, rfl, rfl⟩)

theorem walk_unfold (kind : NodeKind) (children : List Node) (r r' : UnicodeRenderer)
    (h : walk (.mk kind children) r = some r') :
    ∃ st r1 r2 st2, renderNode r (.mk kind children) true = some (st, r1) ∧
      (if st = WalkSkipChildren then some r1 else walkChildren children r1) = some r2 ∧
      renderNode r2 (.mk kind children) false = some (st2, r') := by
  rw [walk] at h
  cases h1 : renderNode r (.mk kind children) true with
  | none => rw [h1] at h; cases h
  | some p1 =>
    obtain ⟨st, r1⟩ := p1
    rw [h1] at h
    simp only at h
    cases h2 : (if st = WalkSkipChildren then some r1 else walkChildren children r1) with
    | none => rw [h2] at h; cases h
    | some r2 =>
      rw [h2] at h
      simp only at h
      cases h3 : renderNode r2 (.mk kind children) false with
      | none => rw [h3] at h; cases h
      | some p3 =>
        obtain ⟨st2, r3⟩ := p3
        rw [h3] at h
        cases h
        exact ⟨st, r1, r2, st2, rfl, h2, h3⟩

mutual

theorem walk_frame : ∀ (n : Node), wellNested n = true → ∀ (r r' : UnicodeRenderer),
    walk n r = some r' → SameFrame r r'
  | .mk kind children, hwn, r, r', hw => by
    obtain ⟨st, r1, r2, st2, h1, h2, h3⟩ := walk_unfold kind children r r' hw
    by_cases hitem : kind = .listItem
    · subst hitem; simp [wellNested] at hwn
    · by_cases hlist : ∃ o s, kind = .list o s
      · obtain ⟨o, s, rfl⟩ := hlist
        simp only [wellNested] at hwn
        simp only [renderNode, Node.kind] at h1 h3
        obtain ⟨r1', e1, l1, l2, l3, _⟩ := renderList_enter r o s children
        rw [e1] at h1
        cases h1
        rw [if_neg (by decide)] at h2
        have hi := walkItems_frame children hwn r1 r2 h2
        obtain ⟨x1, x2, x3⟩ := renderList_exit r2 r' o s children st2 h3
        obtain ⟨i1, i2, i3, i4⟩ := hi
        refine ⟨?_, ?_, ?_⟩
        · rw [x1, i1, l1]; omega
        · rw [x2, i2, l2, List.dropLast_concat]
        · rw [x3]
          by_cases ho : r1.isOrdered.getLast? = some true
          · rw [i3 ho _ _ l3, List.dropLast_concat]
          · rw [i4 ho, l3, List.dropLast_concat]
      · have hk2 : ∀ o s, kind ≠ .list o s := fun o s hh => hlist ⟨o, s, hh⟩
        have f1 := renderNode_frame r r1 kind children true st hitem hk2 h1
        have f3 := renderNode_frame r2 r' kind children false st2 hitem hk2 h3
        have hc : wellNestedChildren children = true := by
          cases kind <;> first | exact hwn | exact absurd rfl hitem | exact absurd rfl (hk2 _ _)
        have f2 : SameFrame r1 r2 := by
          split at h2
          · cases h2; exact SameFrame.refl _
          · exact walkChildren_frame children hc r1 r2 h2
        exact (f1.trans f2).trans f3

theorem walkChildren_frame : ∀ (cs : List Node), wellNestedChildren cs = true →
    ∀ (r r' : UnicodeRenderer), walkChildren cs r = some r' → SameFrame r r'
  | [], _, r, r', hw => by
    rw [walkChildren] at hw; cases hw; exact SameFrame.refl _
  | child :: rest, hwn, r, r', hw => by
    rw [walkChildren] at hw
    simp only [wellNestedChildren, Bool.and_eq_true] at hwn
    split at hw
    · cases hw
    · rename_i r1 h1
      exact (walk_frame child hwn.1 r r1 h1).trans (walkChildren_frame rest hwn.2 r1 r' hw)

theorem walkItems_frame : ∀ (items : List Node), wellNestedItems items = true →
    ∀ (r r' : UnicodeRenderer), walkChildren items r = some r' → ItemsFrame items.length r r'
  | [], _, r, r', hw => by
    rw [walkChildren] at hw; cases hw
    exact ⟨rfl, rfl, fun _ base c hb => by simpa using hb, fun _ => rfl⟩
  | .mk kind children :: rest, hwn, r, r', hw => by
    rw [walkChildren] at hw
    simp only [wellNestedItems, Bool.and_eq_true, decide_eq_true_eq] at hwn
    obtain ⟨⟨rfl, hc⟩, hrest⟩ := hwn
    split at hw
    · cases hw
    · rename_i r3 hwalk
      obtain ⟨st, r1, r2, st2, h1, h2, h3⟩ := walk_unfold _ _ r r3 hwalk
      simp only [renderNode, Node.kind] at h1 h3
      have hst : st = WalkContinue := by
        simp only [renderListItem, if_true] at h1
        repeat' split at h1
        all_goals first | contradiction | (cases h1; rfl)
      subst hst
      rw [if_neg (by decide)] at h2
      obtain ⟨a1, a2, a3⟩ := renderListItem_enter_frame r r1 _ _ h1
      obtain ⟨b1, b2, b3⟩ := walkChildren_frame children hc r1 r2 h2
      obtain ⟨c1, c2, c3⟩ := renderListItem_exit_frame r2 r3 _ _ h3
      obtain ⟨d1, d2, d3, d4⟩ := walkItems_frame rest hrest r3 r' hw
      have e1 : r3.listLevel = r.listLevel := by rw [c1, b1, a1]
      have e2 : r3.isOrdered = r.isOrdered := by rw [c2, b2, a2]
      have e3 : r3.listNumbers = r1.listNumbers := by rw [c3, b3]
      refine ⟨by rw [d1, e1], by rw [d2, e2], ?_, ?_⟩
      · intro ho base c hb
        rcases a3 with ⟨_, c0, hc0, hn⟩ | ⟨hno, _⟩
        · rw [hb] at hc0 hn
          simp only [List.getLast?_concat, Option.some.injEq] at hc0
          subst hc0
          rw [List.dropLast_concat] at hn
          rw [d3 (by rw [e2]; exact ho) base (bump c) (by rw [e3, hn])]
          rw [List.length_cons, Function.iterate_succ_apply]
        · exact absurd ho hno
      · intro hno
        rcases a3 with ⟨ho, _⟩ | ⟨_, hn⟩
        · exact absurd ho hno
        · rw [d4 (by rw [e2]; exact hno), e3, hn]

end

theorem repeatString_two_spaces (n : Nat) : repeatString "  " n = spaces (2 * n) := by
  induction n with
  | zero => rfl
  | succ n ih =>
    rw [repeatString, ih]
    apply String.ext
    simp only [String.data_append, spaces]
    rw [show 2 * (n + 1) = (2 * n + 1) + 1 by ring, List.replicate_succ, List.replicate_succ]
    rfl

theorem stringsRepeat_indent (level : Int) (h : 0 ≤ level) :
    stringsRepeat "  " level = some (spaces (2 * level.toNat)) := by
  unfold stringsRepeat
  rw [if_neg (by omega), repeatString_two_spaces]

/-- What entering an item does when the innermost list is ordered, its counter
is `c` and the nesting level `L` is at least 1. -/
theorem renderListItem_enter_ordered (rk : UnicodeRenderer) (item : Node) (base : List Int)
    (c L : Int) (hL : rk.listLevel = L) (hlevel : 1 ≤ L)
    (hord : rk.isOrdered.getLast? = some true) (hnum : rk.listNumbers = base ++ [c]) :
    renderListItem rk item true =
      (getOrderedMarker c L).map (fun marker =>
        (WalkContinue, { rk with
          inListItem := true
          listNumbers := base ++ [wrapInt64 (c + 1)]
          w := rk.w ++ (spaces (2 * (L - 1).toNat) ++ marker ++ " ") })) := by
  subst hL
  simp only [renderListItem, if_true]
  rw [stringsRepeat_indent _ (by omega)]
  simp only [(isCurrentOrdered_eq _).mpr hord, if_true, hnum, List.getLast?_concat,
    List.dropLast_concat, UnicodeRenderer.WriteString]
  cases getOrderedMarker c rk.listLevel <;> rfl

/-- C1: in an ordered list with start value `s` (a 64-bit `int`) entered from a
state of nesting level `r.listLevel ≥ 0`, so at level `L = r.listLevel + 1`,
entering the `k`-th direct item (after the walk of the `k - 1` earlier items,
whatever lists they contain) writes the indentation, the marker
`getOrderedMarker (s' + k - 1) L` and a space, where `s'` is 1 when `s = 0` and
`s` otherwise; the sum is taken in `int` arithmetic and is the exact sum when
it does not exceed the largest `int`.  In a top-level list starting at 1 the
`k`-th marker, for `k ≤ 20`, is the `k`-th circled numeral. -/
theorem C1_ordered_list_markers (r r0 rk : UnicodeRenderer) (s : Int)
    (pre post : List Node) (item : Node) (k : Nat)
    (hs : -9223372036854775808 ≤ s ∧ s ≤ 9223372036854775807)
    (hlevel : 0 ≤ r.listLevel)
    (hk : k = pre.length + 1)
    (hpre : wellNestedItems pre = true)
    (henter : renderList r (.mk (.list true s) (pre ++ item :: post)) true =
      some (WalkContinue, r0))
    (hwalk : walkChildren pre r0 = some rk) :
    renderListItem rk item true =
      (getOrderedMarker (wrapInt64 ((if s = 0 then 1 else s) + k - 1)) (r.listLevel + 1)).map
        (fun marker => (WalkContinue, { rk with
          inListItem := true
          listNumbers := r.listNumbers ++ [wrapInt64 ((if s = 0 then 1 else s) + k)]
          w := rk.w ++ (spaces (2 * r.listLevel.toNat) ++ marker ++ " ") })) ∧
    ((if s = 0 then 1 else s) + k - 1 ≤ 9223372036854775807 →
      wrapInt64 ((if s = 0 then 1 else s) + k - 1) = (if s = 0 then 1 else s) + k - 1) ∧
    (r.listLevel = 0 → s = 1 → k ≤ 20 →
      renderListItem rk item true =
        some (WalkContinue, { rk with
          inListItem := true
          listNumbers := r.listNumbers ++ [(k : Int) + 1]
          w := rk.w ++ (glyph (0x2460 + (k - 1)) ++ " ") })) := by
  obtain ⟨r1, e1, l1, l2, l3, _⟩ := renderList_enter r true s (pre ++ item :: post)
  rw [e1] at henter
  cases henter
  obtain ⟨i1, i2, i3, _⟩ := walkItems_frame pre hpre r0 rk hwalk
  have hord : rk.isOrdered.getLast? = some true := by rw [i2, l2, List.getLast?_concat]
  have hs' : -9223372036854775808 ≤ (if s = 0 then 1 else s) ∧
      (if s = 0 then 1 else s) ≤ 9223372036854775807 := by
    split <;> omega
  have hnum : rk.listNumbers =
      r.listNumbers ++ [wrapInt64 ((if s = 0 then 1 else s) + k - 1)] := by
    rw [i3 (by rw [l2, List.getLast?_concat]) r.listNumbers _ l3]
    simp only [startValue, if_true]
    rw [bump_iterate _ hs'.1 hs'.2, hk]
    push_cast
    congr 3
    omega
  have hlev : rk.listLevel = r.listLevel + 1 := by rw [i1, l1]
  have hmain := renderListItem_enter_ordered rk item r.listNumbers _ (r.listLevel + 1) hlev
    (by omega) hord hnum
  have hw2 : wrapInt64 (wrapInt64 ((if s = 0 then 1 else s) + k - 1) + 1) =
      wrapInt64 ((if s = 0 then 1 else s) + k) := by
    unfold wrapInt64; omega
  rw [hw2, show r.listLevel + 1 - 1 = r.listLevel by omega] at hmain
  refine ⟨hmain, ?_, ?_⟩
  · intro hle
    exact wrapInt64_of_range _ (by omega) hle
  · intro h0 h1 h20
    subst h1
    have a0 : (if (1 : Int) = 0 then (1 : Int) else 1) = 1 := by decide
    have a1 : (1 : Int) + k - 1 = k := by omega
    have a2 : (1 : Int) + k = k + 1 := by omega
    have a3 : ((k : Int) - 1).toNat = k - 1 := by omega
    have a4 : spaces 0 ++ glyph (0x2460 + (k - 1)) = glyph (0x2460 + (k - 1)) := by
      apply String.ext; simp [spaces]
    rw [a0, a1, a2, h0, wrapInt64_of_range _ (by omega) (by omega),
      wrapInt64_of_range _ (by omega) (by omega), show (0 : Int) + 1 = 1 by rfl,
      (level1_marker (k : Int)).1 ⟨by omega, by omega⟩, a3] at hmain
    simp only [Option.map_some', Int.toNat_zero, Nat.mul_zero, a4] at hmain
    exact hmain

/-- Witness of C1: the second item of a list starting at 3 whose first item
holds a nested ordered list gets the marker of 4. -/
theorem C1_ordered_list_markers_witness :
    walkChildren [tightItem "a" [.mk (.list true 0) [tightItem "p" [], tightItem "q" []]]]
      exampleEntered = some exampleAfterFirstItem ∧
    renderListItem exampleAfterFirstItem (tightItem "b" []) true =
      some (WalkContinue, { exampleAfterFirstItem with
        inListItem := true, listNumbers := [5], w := "③ a\n  ⑴ p\n  ⑵ q\n\n④ " }) ∧
    render DefaultConfig (.mk .document [exampleOrderedList]) =
      some "③ a\n  ⑴ p\n  ⑵ q\n\n④ b\n\n" := by
  refine ⟨by decide!, ?_, by decide!⟩
  rw [(C1_ordered_list_markers (NewUnicodeRenderer DefaultConfig) exampleEntered
    exampleAfterFirstItem 3
    [tightItem "a" [.mk (.list true 0) [tightItem "p" [], tightItem "q" []]]] []
    (tightItem "b" []) 2 (by decide) (by decide) rfl (by decide!) (by decide!) (by decide!)).1]
  decide!

/-- C10: entering an item of an unordered list at list-nesting depth `d ≥ 1`
writes `2 * (d - 1)` spaces, the bullet at index `(d - 1) mod 6` of the palette
•, ◦, ▪, ▫, ‣, ⁃ and one space.  The six glyphs are pairwise distinct, depth
`d + 6` gives the bullet of depth `d`, and depth 7 gives • again. -/
theorem C10_unordered_bullets (r : UnicodeRenderer) (item : Node) (d : Nat) (hd : 1 ≤ d)
    (hlevel : r.listLevel = d) (hun : r.isOrdered.getLast? = some false) :
    (∃ bullet, bullets[(d - 1) % 6]? = some bullet ∧
      bullets[(d + 6 - 1) % 6]? = some bullet ∧
      renderListItem r item true =
        some (WalkContinue, { r with
          inListItem := true
          w := r.w ++ (spaces (2 * (d - 1)) ++ bullet ++ " ") })) ∧
    bullets = ["•", "◦", "▪", "▫", "‣", "⁃"] ∧ bullets.Nodup ∧
    bullets[(7 - 1) % 6]? = some "•" ∧
    render DefaultConfig (.mk .document [exampleBulletList]) = some "• a\n  ◦ b\n\n\n" := by
  refine ⟨?_, rfl, by decide, by decide, by decide!⟩
  have hlen : bullets.length = 6 := rfl
  cases hb : bullets[(d - 1) % 6]? with
  | none =>
    rw [List.getElem?_eq_none_iff, hlen] at hb
    omega
  | some bullet =>
    refine ⟨bullet, rfl, ?_, ?_⟩
    · rw [show (d + 6 - 1) % 6 = (d - 1) % 6 by omega]; exact hb
    · have hno : (decide (r.isOrdered.length > 0) && r.isOrdered.getLast?.getD false) = false := by
        rw [hun]; simp
      have hidx : index bullets (Int.tmod (r.listLevel - 1) bullets.length) = some bullet := by
        rw [hlen, hlevel, Int.tmod_eq_emod (by omega) (by decide)]
        unfold index
        rw [if_neg (by omega), show (((d : Int) - 1) % ((6 : Nat) : Int)).toNat = (d - 1) % 6 by omega]
        exact hb
      simp only [renderListItem, if_true]
      rw [stringsRepeat_indent _ (by omega), hlevel]
      simp only [hno, Bool.false_eq_true, if_false]
      rw [← hlevel, hidx, hlevel, show ((d : Int) - 1).toNat = d - 1 by omega]
      rfl

/-- Witness of C10 at depth 8, where the bullet is the second glyph again. -/
theorem C10_unordered_bullets_witness :
    ∃ bullet, bullets[(8 - 1) % 6]? = some bullet ∧
      bullets[(8 + 6 - 1) % 6]? = some bullet ∧
      renderListItem { exampleEntered with listLevel := 8, isOrdered := [false] }
          (tightItem "b" []) true =
        some (WalkContinue, { exampleEntered with
          listLevel := 8
          isOrdered := [false]
          inListItem := true
          w := exampleEntered.w ++ (spaces (2 * (8 - 1)) ++ bullet ++ " ") }) :=
  (C10_unordered_bullets { exampleEntered with listLevel := 8, isOrdered := [false] }
    (tightItem "b" []) 8 (by decide) rfl rfl).1

theorem toSmartDashes_data (s : String) :
    (toSmartDashes s).data = replacePair (replaceTriple s.data) := rfl

theorem replaceTriple_nil : replaceTriple [] = [] := rfl

theorem replacePair_nil : replacePair [] = [] := rfl

theorem replaceTriple_hyphens (cs : List Char) :
    replaceTriple ('-' :: '-' :: '-' :: cs) = '—' :: replaceTriple cs := by
  simp [replaceTriple, replaceAllAux, List.isPrefixOf]

theorem replaceTriple_other (c : Char) (cs : List Char) (h : c ≠ '-') :
    replaceTriple (c :: cs) = c :: replaceTriple cs := by
  have h2 : ('-' == c) = false := by simpa using fun e => h e.symm
  simp [replaceTriple, replaceAllAux, List.isPrefixOf, h2]

theorem replaceTriple_one (c : Char) (cs : List Char) (h : c ≠ '-') :
    replaceTriple ('-' :: c :: cs) = '-' :: c :: replaceTriple cs := by
  have h2 : ('-' == c) = false := by simpa using fun e => h e.symm
  simp [replaceTriple, replaceAllAux, List.isPrefixOf, h2]

theorem replaceTriple_two (c : Char) (cs : List Char) (h : c ≠ '-') :
    replaceTriple ('-' :: '-' :: c :: cs) = '-' :: '-' :: c :: replaceTriple cs := by
  have h2 : ('-' == c) = false := by simpa using fun e => h e.symm
  simp [replaceTriple, replaceAllAux, List.isPrefixOf, h2]

theorem replaceTriple_one_end : replaceTriple ['-'] = ['-'] := by decide

theorem replaceTriple_two_end : replaceTriple ['-', '-'] = ['-', '-'] := by decide

theorem replacePair_hyphens (cs : List Char) :
    replacePair ('-' :: '-' :: cs) = '–' :: replacePair cs := by
  simp [replacePair, replaceAllAux, List.isPrefixOf]

theorem replacePair_other (c : Char) (cs : List Char) (h : c ≠ '-') :
    replacePair (c :: cs) = c :: replacePair cs := by
  have h2 : ('-' == c) = false := by simpa using fun e => h e.symm
  simp [replacePair, replaceAllAux, List.isPrefixOf, h2]

theorem replacePair_one (c : Char) (cs : List Char) (h : c ≠ '-') :
    replacePair ('-' :: c :: cs) = '-' :: c :: replacePair cs := by
  have h2 : ('-' == c) = false := by simpa using fun e => h e.symm
  simp [replacePair, replaceAllAux, List.isPrefixOf, h2]

theorem replacePair_one_end : replacePair ['-'] = ['-'] := by decide

theorem noLeadingHyphen_cases (l : List Char) (h : NoLeadingHyphen l) :
    l = [] ∨ ∃ c t, l = c :: t ∧ c ≠ '-' := by
  cases l with
  | nil => exact Or.inl rfl
  | cons c t =>
    refine Or.inr ⟨c, t, rfl, ?_⟩
    intro hc
    exact h (by rw [hc]; rfl)

theorem noLeadingHyphen_cons (c : Char) (t : List Char) (h : c ≠ '-') :
    NoLeadingHyphen (c :: t) := by
  intro hh
  simp only [List.head?_cons, Option.some.injEq] at hh
  exact h hh

theorem noLeadingHyphen_nil : NoLeadingHyphen [] := by
  intro hh; cases hh

theorem replaceTriple_noLeadingHyphen (l : List Char) (h : NoLeadingHyphen l) :
    NoLeadingHyphen (replaceTriple l) := by
  rcases noLeadingHyphen_cases l h with rfl | ⟨c, t, rfl, hc⟩
  · exact noLeadingHyphen_nil
  · rw [replaceTriple_other c t hc]
    exact noLeadingHyphen_cons c _ hc

/-- First pass on a run of `n` hyphens that ends the text or is followed by
another character. -/
theorem replaceTriple_run : ∀ (n : Nat) (rest : List Char), NoLeadingHyphen rest →
    replaceTriple (List.replicate n '-' ++ rest) =
      List.replicate (n / 3) '—' ++ (List.replicate (n % 3) '-' ++ replaceTriple rest)
  | 0, rest, _ => by simp
  | 1, rest, h => by
    rcases noLeadingHyphen_cases rest h with rfl | ⟨c, t, rfl, hc⟩
    · exact replaceTriple_one_end
    · simp [replaceTriple_one c t hc, replaceTriple_other c t hc]
  | 2, rest, h => by
    rcases noLeadingHyphen_cases rest h with rfl | ⟨c, t, rfl, hc⟩
    · exact replaceTriple_two_end
    · simp [replaceTriple_two c t hc, replaceTriple_other c t hc, List.replicate_succ]
  | n + 3, rest, h => by
    have ih := replaceTriple_run n rest h
    have e1 : (n + 3) / 3 = n / 3 + 1 := by omega
    have e2 : (n + 3) % 3 = n % 3 := by omega
    rw [e1, e2, List.replicate_succ, List.replicate_succ, List.replicate_succ,
      List.cons_append, List.cons_append, List.cons_append, replaceTriple_hyphens, ih,
      List.replicate_succ, List.cons_append]

theorem replacePair_emDashes (k : Nat) (l : List Char) :
    replacePair (List.replicate k '—' ++ l) = List.replicate k '—' ++ replacePair l := by
  induction k with
  | zero => simp
  | succ k ih =>
    rw [List.replicate_succ, List.cons_append, replacePair_other _ _ (by decide), ih,
      List.cons_append]

/-- Both passes on a run of `n` hyphens that ends the text or is followed by
another character. -/
theorem smartDashes_run (n : Nat) (rest : List Char) (h : NoLeadingHyphen rest) :
    replacePair (replaceTriple (List.replicate n '-' ++ rest)) =
      dashRun n ++ replacePair (replaceTriple rest) := by
  rw [replaceTriple_run n rest h, replacePair_emDashes, dashRun, List.append_assoc]
  congr 1
  have hx := replaceTriple_noLeadingHyphen rest h
  have hmod : n % 3 = 0 ∨ n % 3 = 1 ∨ n % 3 = 2 := by omega
  rcases hmod with h0 | h1 | h2
  · rw [h0]; simp
  · rw [h1]
    rcases noLeadingHyphen_cases _ hx with e | ⟨c, t, e, hc⟩
    · rw [e]; simp [replacePair_one_end, replacePair_nil]
    · rw [e]
      simp [replacePair_one c t hc, replacePair_other c t hc]
  · rw [h2]
    simp [List.replicate_succ, replacePair_hyphens]

theorem smartDashes_cons_other (c : Char) (l : List Char) (h : c ≠ '-') :
    replacePair (replaceTriple (c :: l)) = c :: replacePair (replaceTriple l) := by
  rw [replaceTriple_other c l h, replacePair_other c _ h]

theorem run_decomp (l : List Char) :
    ∃ n rest, l = List.replicate n '-' ++ rest ∧ NoLeadingHyphen rest := by
  induction l with
  | nil => exact ⟨0, [], rfl, noLeadingHyphen_nil⟩
  | cons c t ih =>
    by_cases hc : c = '-'
    · obtain ⟨n, rest, e, hr⟩ := ih
      exact ⟨n + 1, rest, by rw [e, hc, List.replicate_succ, List.cons_append], hr⟩
    · exact ⟨0, c :: t, rfl, noLeadingHyphen_cons c t hc⟩

/-- The text can be cut at any character that is not a hyphen. -/
theorem smartDashes_split (c : Char) (hc : c ≠ '-') (b : List Char) :
    ∀ (m : Nat) (a : List Char), a.length = m →
      replacePair (replaceTriple (a ++ c :: b)) =
        replacePair (replaceTriple a) ++ c :: replacePair (replaceTriple b) := by
  intro m
  induction m using Nat.strong_induction_on with
  | _ m ih =>
    intro a hlen
    obtain ⟨n, rest, e, hr⟩ := run_decomp a
    rcases noLeadingHyphen_cases rest hr with rfl | ⟨d, t, rfl, hd⟩
    · rw [e, List.append_nil, smartDashes_run n (c :: b) (noLeadingHyphen_cons c b hc),
        smartDashes_cons_other c b hc]
      have := smartDashes_run n [] noLeadingHyphen_nil
      rw [List.append_nil] at this
      rw [this]
      simp [replaceTriple_nil, replacePair_nil]
    · have hlt : t.length < m := by
        rw [← hlen, e]; simp; omega
      rw [e, List.append_assoc, List.cons_append,
        smartDashes_run n _ (noLeadingHyphen_cons d _ hd), smartDashes_cons_other d _ hd,
        ih t.length hlt t rfl, smartDashes_run n _ (noLeadingHyphen_cons d _ hd),
        smartDashes_cons_other d _ hd]
      simp

/-- A maximal run of `n` hyphens between `pre` and `post`. -/
theorem smartDashes_between (n : Nat) (pre post : List Char) (hpre : NoTrailingHyphen pre)
    (hpost : NoLeadingHyphen post) :
    replacePair (replaceTriple (pre ++ (List.replicate n '-' ++ post))) =
      replacePair (replaceTriple pre) ++ (dashRun n ++ replacePair (replaceTriple post)) := by
  rcases List.eq_nil_or_concat pre with rfl | ⟨p, c, rfl⟩
  · simp [replaceTriple_nil, replacePair_nil, smartDashes_run n post hpost]
  · rw [List.concat_eq_append] at hpre ⊢
    have hc : c ≠ '-' := by
      intro e; apply hpre; rw [e]; simp
    rw [List.append_assoc, List.singleton_append,
      smartDashes_split c hc _ p.length p rfl, smartDashes_run n post hpost,
      smartDashes_split c hc [] p.length p rfl]
    simp [replaceTriple_nil, replacePair_nil]

/-- C3: a maximal run of exactly three hyphens (between a text `pre` that does
not end with a hyphen and a text `post` that does not start with one) becomes
one em dash, a maximal run of exactly two hyphens one en dash, a single hyphen
stays, and every character other than a hyphen stays where it is, the text on
both sides of it being converted on its own. -/
theorem C3_smart_dashes_short_runs (pre post : String)
    (hpre : NoTrailingHyphen pre.data) (hpost : NoLeadingHyphen post.data) :
    toSmartDashes (pre ++ "---" ++ post) = toSmartDashes pre ++ "—" ++ toSmartDashes post ∧
    toSmartDashes (pre ++ "--" ++ post) = toSmartDashes pre ++ "–" ++ toSmartDashes post ∧
    toSmartDashes (pre ++ "-" ++ post) = toSmartDashes pre ++ "-" ++ toSmartDashes post ∧
    (∀ (a b : String) (c : Char), c ≠ '-' →
      toSmartDashes (a ++ String.singleton c ++ b) =
        toSmartDashes a ++ String.singleton c ++ toSmartDashes b) ∧
    toSmartDashes "a---b" = "a—b" ∧ toSmartDashes "a--b" = "a–b" ∧
    toSmartDashes "a - b" = "a - b" := by
  refine ⟨?_, ?_, ?_, ?_, by decide, by decide, by decide⟩
  · apply String.ext
    simp only [toSmartDashes_data, String.data_append, List.append_assoc]
    exact smartDashes_between 3 pre.data post.data hpre hpost
  · apply String.ext
    simp only [toSmartDashes_data, String.data_append, List.append_assoc]
    exact smartDashes_between 2 pre.data post.data hpre hpost
  · apply String.ext
    simp only [toSmartDashes_data, String.data_append, List.append_assoc]
    exact smartDashes_between 1 pre.data post.data hpre hpost
  · intro a b c hc
    apply String.ext
    simp only [toSmartDashes_data, String.data_append, List.append_assoc]
    exact smartDashes_split c hc b.data a.data.length a.data rfl

/-- Witness of C3 with `pre = "x"` and `post = "y--"`. -/
theorem C3_smart_dashes_short_runs_witness :
    toSmartDashes ("x" ++ "---" ++ "y--") = toSmartDashes "x" ++ "—" ++ toSmartDashes "y--" :=
  (C3_smart_dashes_short_runs "x" "y--" (by unfold NoTrailingHyphen; decide)
    (by unfold NoLeadingHyphen; decide)).1

/-- C4: each of the three style functions returns a string with exactly as
many code points as its argument. -/
theorem C4_style_preserves_length (s : String) :
    (toBoldSansSerifText s).length = s.length ∧
    (toItalicScriptText s).length = s.length ∧
    (toSlantedSansSerifText s).length = s.length := by
  simp only [toBoldSansSerifText, toItalicScriptText, toSlantedSansSerifText, translateMap,
    String.length, List.length_map, and_self]

theorem translateMap_getElem? (s : String) (m : List (Char × Char)) (i : Nat) (c : Char)
    (h : s.data[i]? = some c) :
    (translateMap s m).data[i]? =
      some (match m.lookup c with
        | some out => out
        | none => c) := by
  simp only [translateMap, List.getElem?_map, h, Option.map_some']

theorem lookup_of_not_key (m : List (Char × Char)) (c : Char) (h : c ∉ m.map Prod.fst) :
    m.lookup c = none := by
  rw [List.lookup_eq_none_iff]
  intro p hp
  simp only [bne_iff_ne, ne_eq]
  intro e
  exact h (List.mem_map.mpr ⟨p, hp, e.symm⟩)

theorem translateMap_unmapped (s : String) (m : List (Char × Char)) (i : Nat) (c : Char)
    (h : s.data[i]? = some c) (hc : c ∉ m.map Prod.fst) :
    (translateMap s m).data[i]? = some c := by
  rw [translateMap_getElem? s m i c h, lookup_of_not_key m c hc]

/-- C5: a character that is not a key of the table of a style function stands
unchanged at the same position of the output.  The keys are the Latin letters,
and for the bold style also the digits; so the digits are unchanged by the
script and slanted styles, while the bold style replaces each digit by another
code point, and characters such as a space, punctuation or non-Latin letters
are unchanged by all three. -/
theorem C5_unmapped_characters_unchanged (s : String) (i : Nat) (c : Char)
    (h : s.data[i]? = some c) :
    (c ∉ latinLetters ++ asciiDigits → (toBoldSansSerifText s).data[i]? = some c) ∧
    (c ∉ latinLetters →
      (toItalicScriptText s).data[i]? = some c ∧
      (toSlantedSansSerifText s).data[i]? = some c) ∧
    (c ∈ asciiDigits →
      (toItalicScriptText s).data[i]? = some c ∧
      (toSlantedSansSerifText s).data[i]? = some c ∧
      ∃ y, (toBoldSansSerifText s).data[i]? = some y ∧ y ≠ c) ∧
    boldSansSerifMap.map Prod.fst = latinLetters ++ asciiDigits ∧
    italicScriptMap.map Prod.fst = latinLetters ∧
    slantedSansSerifMap.map Prod.fst = latinLetters ∧
    (∀ x ∈ [' ', '\n', '!', '-', '.', 'é', 'Ω', 'ж', '中'], x ∉ latinLetters ++ asciiDigits) := by
  have kb : boldSansSerifMap.map Prod.fst = latinLetters ++ asciiDigits := by decide
  have ks : italicScriptMap.map Prod.fst = latinLetters := by decide
  have kl : slantedSansSerifMap.map Prod.fst = latinLetters := by decide
  have hdl : ∀ d ∈ asciiDigits, d ∉ latinLetters := by decide
  have hdb : ∀ d ∈ asciiDigits, ∃ y, boldSansSerifMap.lookup d = some y ∧ y ≠ d := by decide
  refine ⟨?_, ?_, ?_, kb, ks, kl, by decide⟩
  · intro hc
    exact translateMap_unmapped s _ i c h (by rw [kb]; exact hc)
  · intro hc
    exact ⟨translateMap_unmapped s _ i c h (by rw [ks]; exact hc),
      translateMap_unmapped s _ i c h (by rw [kl]; exact hc)⟩
  · intro hc
    refine ⟨translateMap_unmapped s _ i c h (by rw [ks]; exact hdl c hc),
      translateMap_unmapped s _ i c h (by rw [kl]; exact hdl c hc), ?_⟩
    obtain ⟨y, hy, hne⟩ := hdb c hc
    refine ⟨y, ?_, hne⟩
    rw [toBoldSansSerifText, translateMap_getElem? s _ i c h, hy]

/-- Witness of C5 on the text "a 1": the space at position 1 and the digit at
position 2. -/
theorem C5_unmapped_characters_unchanged_witness :
    (toBoldSansSerifText "a 1").data[1]? = some ' ' ∧
    ((toItalicScriptText "a 1").data[2]? = some '1' ∧
      (toSlantedSansSerifText "a 1").data[2]? = some '1' ∧
      ∃ y, (toBoldSansSerifText "a 1").data[2]? = some y ∧ y ≠ '1') :=
  ⟨(C5_unmapped_characters_unchanged "a 1" 1 ' ' (by decide)).1 (by decide),
   (C5_unmapped_characters_unchanged "a 1" 2 '1' (by decide)).2.2.1 (by decide)⟩

/-- C2: `renderText` writes the text after the smart-dash pass and exactly one
styling pass chosen by the priority heading > strong > italic > plain: in a
heading the bold sans-serif letters whatever the other flags and the
configuration; else in a strong span the configured strong style only; else in
an italic span the configured italic style only; else the text as it is.  With
a hard line break the same text is written, followed by the line break.  With
the default configuration `**bold** and *italic*` is rendered with "bold" in
bold sans-serif, "italic" in slanted sans-serif and " and " unchanged. -/
theorem C2_renderText_style_priority (r : UnicodeRenderer) (t : String) (cs : List Node) :
    (r.inHeader = true →
      renderText r (.mk (.text t false) cs) true =
        some (WalkContinue, r.WriteString (toBoldSansSerifText (toSmartDashes t)))) ∧
    (r.inHeader = false → r.inStrong = true →
      (r.config.strongStyle = StrongStylePlain →
        renderText r (.mk (.text t false) cs) true =
          some (WalkContinue, r.WriteString (toSmartDashes t))) ∧
      (r.config.strongStyle = StrongStyleMarkers →
        renderText r (.mk (.text t false) cs) true =
          some (WalkContinue, r.WriteString ("**" ++ toSmartDashes t ++ "**"))) ∧
      (r.config.strongStyle = StrongStyleBoldSansSerif →
        renderText r (.mk (.text t false) cs) true =
          some (WalkContinue, r.WriteString (toBoldSansSerifText (toSmartDashes t))))) ∧
    (r.inHeader = false → r.inStrong = false → r.inItalic = true →
      (r.config.italicStyle = ItalicStylePlain →
        renderText r (.mk (.text t false) cs) true =
          some (WalkContinue, r.WriteString (toSmartDashes t))) ∧
      (r.config.italicStyle = ItalicStyleMarkers →
        renderText r (.mk (.text t false) cs) true =
          some (WalkContinue, r.WriteString ("*" ++ toSmartDashes t ++ "*"))) ∧
      (r.config.italicStyle = ItalicStyleScript →
        renderText r (.mk (.text t false) cs) true =
          some (WalkContinue, r.WriteString (toItalicScriptText (toSmartDashes t)))) ∧
      (r.config.italicStyle = ItalicStyleSlantedSansSerif →
        renderText r (.mk (.text t false) cs) true =
          some (WalkContinue, r.WriteString (toSlantedSansSerifText (toSmartDashes t))))) ∧
    (r.inHeader = false → r.inStrong = false → r.inItalic = false →
      renderText r (.mk (.text t false) cs) true =
        some (WalkContinue, r.WriteString (toSmartDashes t))) ∧
    (∀ st r', renderText r (.mk (.text t true) cs) true = some (st, r') →
      ∃ r1 suffix, renderText r (.mk (.text t false) cs) true = some (WalkContinue, r1) ∧
        r'.w = r1.w ++ "\n" ++ suffix) ∧
    render DefaultConfig exampleEmphasis =
      some (toBoldSansSerifText "bold" ++ " and " ++ toSlantedSansSerifText "italic" ++ "\n\n") ∧
    toBoldSansSerifText "bold" = "𝗯𝗼𝗹𝗱" ∧ toSlantedSansSerifText "italic" = "𝘪𝘵𝘢𝘭𝘪𝘤" := by
  have base : renderText r (.mk (.text t false) cs) true =
      some (WalkContinue, r.WriteString (styleText r t)) := by
    simp [renderText, Node.kind]
  refine ⟨?_, ?_, ?_, ?_, ?_, by decide!, by decide, by decide⟩
  · intro h
    rw [base]; simp [styleText, h]
  · intro h1 h2
    refine ⟨?_, ?_, ?_⟩ <;> intro h3 <;> rw [base] <;>
      simp [styleText, h1, h2, h3, StrongStylePlain, StrongStyleMarkers, StrongStyleBoldSansSerif]
  · intro h1 h2 h3
    refine ⟨?_, ?_, ?_, ?_⟩ <;> intro h4 <;> rw [base] <;>
      simp [styleText, h1, h2, h3, h4, ItalicStylePlain, ItalicStyleMarkers, ItalicStyleScript,
        ItalicStyleSlantedSansSerif]
  · intro h1 h2 h3
    rw [base]; simp [styleText, h1, h2, h3]
  · intro st r' h
    simp only [renderText, Node.kind, Bool.not_true, Bool.false_eq_true, if_false, if_true] at h
    by_cases hb : ((r.WriteString (styleText r t)).WriteString "\n").inBlockquote = true
    · rw [if_pos hb] at h
      cases hrep : stringsRepeat "┃ "
          ((r.WriteString (styleText r t)).WriteString "\n").blockquoteLevel with
      | none => rw [hrep] at h; cases h
      | some pre => rw [hrep] at h; cases h; exact ⟨_, pre, base, rfl⟩
    · rw [if_neg hb] at h
      by_cases hl : ((r.WriteString (styleText r t)).WriteString "\n").inListItem = true
      · rw [if_pos hl] at h
        cases hrep : stringsRepeat "  "
            ((r.WriteString (styleText r t)).WriteString "\n").listLevel with
        | none => rw [hrep] at h; cases h
        | some pre => rw [hrep] at h; cases h; exact ⟨_, pre, base, rfl⟩
      · rw [if_neg hl] at h
        cases h
        exact ⟨_, "", base, (String.append_empty _).symm⟩

/-- Witness of C2 in a heading that is also inside a strong and an italic
span, with the marker styles configured. -/
theorem C2_renderText_style_priority_witness :
    renderText exampleInHeading (.mk (.text "a--b" false) []) true =
      some (WalkContinue,
        exampleInHeading.WriteString (toBoldSansSerifText (toSmartDashes "a--b"))) :=
  (C2_renderText_style_priority exampleInHeading "a--b" []).1 rfl

/-- C11: entering a heading of level `L ≥ 1` writes the prefix "█" (L = 1),
"▓▓" (L = 2), "▒▒▒" (L = 3), "░░░░" (L = 4), "▫" (L = 5) or "▪" (L ≥ 6) and
one space; exiting writes, for L ≤ 2 only, a newline and 50 copies of "═"
(L = 1) or "─" (L = 2), and then always "\n\n".  Converting the tree of
`# Hello` with the default configuration gives "█ ", the bold sans-serif
letters of "Hello", a newline and 50 copies of "═". -/
theorem C11_heading_prefix_and_underline (r : UnicodeRenderer) (L : Int) (cs : List Node)
    (hL : 1 ≤ L) :
    renderHeading r (.mk (.heading L) cs) true =
      some (WalkContinue, { r with
        inHeader := true
        w := r.w ++ ((if L = 1 then "█" else if L = 2 then "▓▓" else if L = 3 then "▒▒▒"
          else if L = 4 then "░░░░" else if L = 5 then "▫" else "▪") ++ " ") }) ∧
    renderHeading r (.mk (.heading L) cs) false =
      some (WalkContinue, { r with
        inHeader := false
        w := if L = 1 then r.w ++ "\n" ++ ⟨List.replicate 50 '═'⟩ ++ "\n\n"
          else if L = 2 then r.w ++ "\n" ++ ⟨List.replicate 50 '─'⟩ ++ "\n\n"
          else r.w ++ "\n\n" }) ∧
    Convert (fun _ => exampleHeading) "# Hello" DefaultConfig =
      some ("█ " ++ ⟨[Char.ofNat 0x1D5DB, Char.ofNat 0x1D5F2, Char.ofNat 0x1D5F9,
        Char.ofNat 0x1D5F9, Char.ofNat 0x1D5FC]⟩ ++ "\n" ++ ⟨List.replicate 50 '═'⟩) := by
  refine ⟨?_, ?_, by decide!⟩
  · have h : L = 1 ∨ L = 2 ∨ L = 3 ∨ L = 4 ∨ L = 5 ∨ 6 ≤ L := by omega
    rcases h with h | h | h | h | h | h
    · subst h; rfl
    · subst h; rfl
    · subst h; rfl
    · subst h; rfl
    · subst h; rfl
    · have e1 : ¬ L = 1 := by omega
      have e2 : ¬ L = 2 := by omega
      have e3 : ¬ L = 3 := by omega
      have e4 : ¬ L = 4 := by omega
      have e5 : ¬ L = 5 := by omega
      have e6 : ¬ (L > 1 ∧ L < 5) := by omega
      simp only [renderHeading, Node.kind, if_true, e1, e2, e3, e4, e5, e6, if_false,
        UnicodeRenderer.WriteString]
  · have h : L = 1 ∨ L = 2 ∨ 3 ≤ L := by omega
    rcases h with h | h | h
    · subst h; rfl
    · subst h; rfl
    · have e1 : ¬ L = 1 := by omega
      have e2 : ¬ L = 2 := by omega
      have e3 : ¬ L ≤ 2 := by omega
      simp only [renderHeading, Node.kind, Bool.false_eq_true, if_false, e1, e2, e3,
        UnicodeRenderer.WriteString]

/-- Witness of C11 at level 3. -/
theorem C11_heading_prefix_and_underline_witness :
    renderHeading exampleEntered (.mk (.heading 3) []) true =
      some (WalkContinue, { exampleEntered with
        inHeader := true
        w := exampleEntered.w ++ ((if (3 : Int) = 1 then "█" else if (3 : Int) = 2 then "▓▓"
          else if (3 : Int) = 3 then "▒▒▒" else if (3 : Int) = 4 then "░░░░"
          else if (3 : Int) = 5 then "▫" else "▪") ++ " ") }) :=
  (C11_heading_prefix_and_underline exampleEntered 3 [] (by decide)).1

/-- C15, at the failing input: for an automatic link the handler writes "[" on
entering and panics on exiting, where `renderLink` asserts that the node is a
link; so the walk of every tree that reaches an automatic link fails, while a
link with destination `d` is closed by "] 🔗 <d>". -/
theorem C15_autolink_exit_panics (r : UnicodeRenderer) (cs : List Node) (d : String) :
    renderNode r (.mk .autoLink cs) true = some (WalkContinue, r.WriteString "[") ∧
    renderNode r (.mk .autoLink cs) false = none ∧
    walk (.mk .autoLink cs) r = none ∧
    renderNode r (.mk (.link d) cs) false =
      some (WalkContinue, r.WriteString ("] 🔗 <" ++ d ++ ">")) ∧
    render DefaultConfig exampleAutoLink = none := by
  refine ⟨rfl, rfl, ?_, rfl, by decide!⟩
  rw [walk]
  have h1 : renderNode r (.mk .autoLink cs) true = some (WalkContinue, r.WriteString "[") := rfl
  rw [h1]
  simp only
  cases h2 : (if WalkContinue = WalkSkipChildren then some (r.WriteString "[")
      else walkChildren cs (r.WriteString "[")) with
  | none => rfl
  | some r2 => rfl

/-- C18 as stated fails for the strong style: the text "PLAIN" is none of the
documented selectors, yet `StrongStyle.UnmarshalText` accepts it and sets the
plain style, while `ItalicStyle.UnmarshalText` rejects it. -/
theorem C18_strong_accepts_uppercase :
    "PLAIN" ∉ ["plain", "markers", "bold-sans-serif"] ∧
    StrongStyle.UnmarshalText (fun c => c) StrongStyleBoldSansSerif "PLAIN" =
      (StrongStylePlain, none) ∧
    ItalicStyle.UnmarshalText ItalicStyleScript "PLAIN" =
      (ItalicStyleScript, some "invalid italic style: PLAIN") := by
  decide

/-- C18, amended: `ItalicStyle.UnmarshalText` succeeds exactly on the texts
"plain", "markers", "script" and "slanted-sans-serif"; `StrongStyle.UnmarshalText`
succeeds exactly on the texts whose lower-cased form (`strings.ToLower`) is
"plain", "markers" or "bold-sans-serif", so "PLAIN" is accepted whatever
`unicode.ToLower` does outside ASCII.  On success the value is the style of the
selector; on failure there is an error and the previous value is kept. -/
theorem C18_unmarshalText (lower : Char → Char) (i : ItalicStyle) (s : StrongStyle)
    (text : String) :
    ((ItalicStyle.UnmarshalText i text).2 = none ↔
      text ∈ ["plain", "markers", "script", "slanted-sans-serif"]) ∧
    (text = "plain" → ItalicStyle.UnmarshalText i text = (ItalicStylePlain, none)) ∧
    (text = "markers" → ItalicStyle.UnmarshalText i text = (ItalicStyleMarkers, none)) ∧
    (text = "script" → ItalicStyle.UnmarshalText i text = (ItalicStyleScript, none)) ∧
    (text = "slanted-sans-serif" →
      ItalicStyle.UnmarshalText i text = (ItalicStyleSlantedSansSerif, none)) ∧
    (text ∉ ["plain", "markers", "script", "slanted-sans-serif"] →
      ItalicStyle.UnmarshalText i text = (i, some ("invalid italic style: " ++ text))) ∧
    ((StrongStyle.UnmarshalText lower s text).2 = none ↔
      stringsToLower lower text ∈ ["plain", "markers", "bold-sans-serif"]) ∧
    (stringsToLower lower text = "plain" →
      StrongStyle.UnmarshalText lower s text = (StrongStylePlain, none)) ∧
    (stringsToLower lower text = "markers" →
      StrongStyle.UnmarshalText lower s text = (StrongStyleMarkers, none)) ∧
    (stringsToLower lower text = "bold-sans-serif" →
      StrongStyle.UnmarshalText lower s text = (StrongStyleBoldSansSerif, none)) ∧
    (stringsToLower lower text ∉ ["plain", "markers", "bold-sans-serif"] →
      StrongStyle.UnmarshalText lower s text = (s, some ("invalid strong style: " ++ text))) ∧
    StrongStyle.UnmarshalText lower s "PLAIN" = (StrongStylePlain, none) ∧
    StrongStyle.UnmarshalText lower s "Bold-Sans-Serif" = (StrongStyleBoldSansSerif, none) := by
  have hI : text ∉ ["plain", "markers", "script", "slanted-sans-serif"] →
      ItalicStyle.UnmarshalText i text = (i, some ("invalid italic style: " ++ text)) := by
    intro h
    simp only [List.mem_cons, List.mem_singleton, List.not_mem_nil, or_false, not_or] at h
    simp only [ItalicStyle.UnmarshalText, h.1, h.2.1, h.2.2.1, h.2.2.2, if_false]
  have hS : stringsToLower lower text ∉ ["plain", "markers", "bold-sans-serif"] →
      StrongStyle.UnmarshalText lower s text = (s, some ("invalid strong style: " ++ text)) := by
    intro h
    simp only [List.mem_cons, List.mem_singleton, List.not_mem_nil, or_false, not_or] at h
    simp only [StrongStyle.UnmarshalText, h.1, h.2.1, h.2.2, if_false]
  have i1 : text = "plain" → ItalicStyle.UnmarshalText i text = (ItalicStylePlain, none) := by
    intro h; subst h; rfl
  have i2 : text = "markers" → ItalicStyle.UnmarshalText i text = (ItalicStyleMarkers, none) := by
    intro h; subst h; rfl
  have i3 : text = "script" → ItalicStyle.UnmarshalText i text = (ItalicStyleScript, none) := by
    intro h; subst h; rfl
  have i4 : text = "slanted-sans-serif" →
      ItalicStyle.UnmarshalText i text = (ItalicStyleSlantedSansSerif, none) := by
    intro h; subst h; rfl
  have s1 : stringsToLower lower text = "plain" →
      StrongStyle.UnmarshalText lower s text = (StrongStylePlain, none) := by
    intro h; simp only [StrongStyle.UnmarshalText, h, if_true]
  have s2 : stringsToLower lower text = "markers" →
      StrongStyle.UnmarshalText lower s text = (StrongStyleMarkers, none) := by
    intro h; simp only [StrongStyle.UnmarshalText, h]; rfl
  have s3 : stringsToLower lower text = "bold-sans-serif" →
      StrongStyle.UnmarshalText lower s text = (StrongStyleBoldSansSerif, none) := by
    intro h; simp only [StrongStyle.UnmarshalText, h]; rfl
  refine ⟨⟨?_, ?_⟩, i1, i2, i3, i4, hI, ⟨?_, ?_⟩, s1, s2, s3, hS, rfl, rfl⟩
  · intro h
    by_contra hn
    rw [hI hn] at h
    cases h
  · intro h
    simp only [List.mem_cons, List.mem_singleton, List.not_mem_nil, or_false] at h
    rcases h with h | h | h | h
    · rw [i1 h]
    · rw [i2 h]
    · rw [i3 h]
    · rw [i4 h]
  · intro h
    by_contra hn
    rw [hS hn] at h
    cases h
  · intro h
    simp only [List.mem_cons, List.mem_singleton, List.not_mem_nil, or_false] at h
    rcases h with h | h | h
    · rw [s1 h]
    · rw [s2 h]
    · rw [s3 h]

/-- Witness of C18: "script" for the italic style, "MARKERS" for the strong
style, and the rejected text "bold". -/
theorem C18_unmarshalText_witness :
    ItalicStyle.UnmarshalText ItalicStylePlain "script" = (ItalicStyleScript, none) ∧
    StrongStyle.UnmarshalText (fun c => c) StrongStylePlain "MARKERS" =
      (StrongStyleMarkers, none) ∧
    StrongStyle.UnmarshalText (fun c => c) StrongStyleMarkers "bold" =
      (StrongStyleMarkers, some ("invalid strong style: " ++ "bold")) :=
  ⟨(C18_unmarshalText (fun c => c) ItalicStylePlain StrongStylePlain "script").2.2.2.1 rfl,
   (C18_unmarshalText (fun c => c) ItalicStylePlain StrongStylePlain
      "MARKERS").2.2.2.2.2.2.2.2.1 (by decide),
   (C18_unmarshalText (fun c => c) ItalicStylePlain StrongStyleMarkers
      "bold").2.2.2.2.2.2.2.2.2.2.1 (by decide)⟩

/-- C19, at the failing input: the table of `toItalicScriptText` maps the
capital B to U+1D4B7, the script small b, so "B" and "b" are rendered alike and
the 52 values are not pairwise distinct; every other letter is mapped to its
script letter, and the script letter of B is U+212C. -/
theorem C19_script_capital_B :
    italicScriptMap.lookup 'B' = some (Char.ofNat 0x1D4B7) ∧
    italicScriptMap.lookup 'b' = some (Char.ofNat 0x1D4B7) ∧
    toItalicScriptText "B" = toItalicScriptText "b" ∧
    scriptLetter 'B' = Char.ofNat 0x212C ∧
    ¬ (italicScriptMap.map Prod.snd).Nodup ∧
    (∀ c ∈ latinLetters, c ≠ 'B' → italicScriptMap.lookup c = some (scriptLetter c)) ∧
    (latinLetters.map scriptLetter).Nodup := by
  refine ⟨by decide, by decide, by decide, by decide, by decide, by decide, by decide⟩

/-- C20: `toBoldSansSerifText` maps the `k`-th capital letter to U+1D5D4 + k,
the `k`-th small letter to U+1D5EE + k and the digit `d` to U+1D7EC + d;
`toSlantedSansSerifText` maps the `k`-th capital letter to U+1D608 + k and the
`k`-th small letter to U+1D622 + k.  Both tables have these keys only and
pairwise distinct values, so distinct source characters give distinct glyphs. -/
theorem C20_bold_and_slanted_blocks :
    (∀ k < 26,
      toBoldSansSerifText (String.singleton (Char.ofNat (0x41 + k))) =
        String.singleton (Char.ofNat (0x1D5D4 + k)) ∧
      toBoldSansSerifText (String.singleton (Char.ofNat (0x61 + k))) =
        String.singleton (Char.ofNat (0x1D5EE + k)) ∧
      toSlantedSansSerifText (String.singleton (Char.ofNat (0x41 + k))) =
        String.singleton (Char.ofNat (0x1D608 + k)) ∧
      toSlantedSansSerifText (String.singleton (Char.ofNat (0x61 + k))) =
        String.singleton (Char.ofNat (0x1D622 + k))) ∧
    (∀ d < 10,
      toBoldSansSerifText (String.singleton (Char.ofNat (0x30 + d))) =
        String.singleton (Char.ofNat (0x1D7EC + d))) ∧
    boldSansSerifMap.map Prod.fst = latinLetters ++ asciiDigits ∧
    slantedSansSerifMap.map Prod.fst = latinLetters ∧
    (boldSansSerifMap.map Prod.snd).Nodup ∧
    (slantedSansSerifMap.map Prod.snd).Nodup ∧
    ((latinLetters ++ asciiDigits).map
      (fun c => toBoldSansSerifText (String.singleton c))).Nodup ∧
    (latinLetters.map (fun c => toSlantedSansSerifText (String.singleton c))).Nodup := by
  refine ⟨by decide!, by decide!, by decide, by decide, by decide!, by decide!, by decide!,
    by decide!⟩

theorem renderNode_inBlockquote (r r' : UnicodeRenderer) (node : Node) (e : Bool)
    (st : WalkStatus) (h : renderNode r node e = some (st, r')) :
    r'.inBlockquote = r.inBlockquote := by
  obtain ⟨k, cs⟩ := node
  cases k <;> simp only [renderNode, Node.kind] at h
  case text v hb =>
    simp only [renderText] at h
    repeat' split at h
    all_goals first
      | contradiction
      | (cases h; rfl)
  case list o s =>
    cases e
    · obtain ⟨r1, e1, _⟩ := renderList_exit_eq r o s cs
      simp only [renderList, Node.kind, Bool.false_eq_true, if_false] at h
      repeat' split at h
      all_goals first
        | contradiction
        | (cases h; rfl)
    · simp only [renderList, Node.kind, if_true] at h
      repeat' split at h
      all_goals first
        | contradiction
        | (cases h; rfl)
  case listItem =>
    simp only [renderListItem] at h
    repeat' split at h
    all_goals first
      | contradiction
      | (cases h; rfl)
  all_goals
    simp only [renderDocument, renderHeading, renderParagraph, renderEmphasis,
      renderBlockquote, renderCodeBlock, renderCodeSpan, renderLink, renderImage,
      renderThematicBreak, renderAutoLink, renderRawHTML, renderHTMLBlock, renderTextBlock,
      Node.kind] at h
    repeat' split at h
    all_goals first
      | contradiction
      | (cases h; rfl)

/-- C14, at the failing input: no handler ever changes the flag `inBlockquote`,
which a fresh renderer has cleared, so a hard line break inside a blockquote
is followed by no quote marker (the second line of the example starts with
"b", not with "┃ b"); with the flag cleared the handler writes, after the text
and the newline, the list indentation inside a list item and nothing
otherwise. -/
theorem C14_hard_break_in_blockquote :
    render DefaultConfig exampleQuoteHardBreak = some "┃ a\nb\n\n\n\n" ∧
    (∀ config, (NewUnicodeRenderer config).inBlockquote = false) ∧
    (∀ r r' node e st, renderNode r node e = some (st, r') →
      r'.inBlockquote = r.inBlockquote) ∧
    (∀ r t cs, r.inBlockquote = false → r.inListItem = false →
      renderText r (.mk (.text t true) cs) true =
        some (WalkContinue, (r.WriteString (styleText r t)).WriteString "\n")) ∧
    (∀ (r : UnicodeRenderer) t cs (d : Nat), r.inBlockquote = false → r.inListItem = true →
        r.listLevel = (d : Int) →
      renderText r (.mk (.text t true) cs) true =
        some (WalkContinue,
          ((r.WriteString (styleText r t)).WriteString "\n").WriteString
            (repeatString "  " d))) := by
  refine ⟨by decide!, fun _ => rfl, fun r r' node e st h => renderNode_inBlockquote r r' node e st h,
    ?_, ?_⟩
  · intro r t cs h1 h2
    simp [renderText, Node.kind, UnicodeRenderer.WriteString, h1, h2]
  · intro r t cs d h1 h2 h3
    have hrep : stringsRepeat "  " r.listLevel = some (repeatString "  " d) := by
      unfold stringsRepeat
      rw [if_neg (by omega), h3, Int.toNat_ofNat]
    simp [renderText, Node.kind, UnicodeRenderer.WriteString, h1, h2, hrep]

theorem runesAux_length_le (fuel : Nat) (bs : List Nat) : (runesAux fuel bs).length ≤ fuel := by
  induction fuel generalizing bs with
  | zero => simp [runesAux]
  | succ n ih =>
    cases bs with
    | nil => simp [runesAux]
    | cons b t =>
      simp only [runesAux, List.length_cons]
      exact Nat.succ_le_succ (ih _)

theorem runes_length_le (bs : List Nat) : (runes bs).length ≤ bs.length :=
  runesAux_length_le bs.length bs

theorem rowContent_length_le (line : String) : (rowContent line).length ≤ 61 := by
  unfold rowContent
  split
  · refine Nat.le_trans (runes_length_le _) ?_
    have h3 : (utf8EncodeString "…").length = 3 := by decide
    rw [List.length_append, List.length_take, h3]
    omega
  · omega

theorem repeatString_space (n : Nat) : repeatString " " n = spaces n := by
  induction n with
  | zero => rfl
  | succ n ih =>
    rw [repeatString, ih]
    apply String.ext
    simp only [String.data_append, spaces, List.replicate_succ]
    rfl

theorem codeBlockRow_eq (line : String) : codeBlockRow line = some (boxRow line ++ "\n") := by
  have hlen := rowContent_length_le line
  have hrep : stringsRepeat " " (64 - ((rowContent line).length : Int) - 2) =
      some (spaces (62 - (rowContent line).length)) := by
    unfold stringsRepeat
    rw [if_neg (by omega), repeatString_space]
    congr 2
    omega
  have hrow : codeBlockRow line =
      match stringsRepeat " " (64 - ((rowContent line).length : Int) - 2) with
      | none => none
      | some pad => some ("│ " ++ rowContent line ++ pad ++ " │\n") := rfl
  rw [hrow, hrep]
  simp only [boxRow, String.append_assoc]
  rfl

theorem boxRow_length (line : String) : (boxRow line).length = 66 := by
  have hlen := rowContent_length_le line
  simp only [boxRow, String.length_append, spaces]
  have h1 : "│ ".length = 2 := by decide
  have h2 : " │".length = 2 := by decide
  have h3 : (String.mk (List.replicate (62 - (rowContent line).length) ' ')).length =
      62 - (rowContent line).length := List.length_replicate _ _
  rw [h1, h2, h3]
  omega

theorem codeBlockRows_eq (lines : List String) :
    codeBlockRows lines = some (concatLines (lines.map boxRow)) := by
  induction lines with
  | nil => rfl
  | cons l ls ih =>
    simp only [codeBlockRows, codeBlockRow_eq, ih, List.map_cons, concatLines]

theorem renderCodeBlock_eq (r : UnicodeRenderer) (node : Node) :
    renderCodeBlock r node true =
      some (WalkSkipChildren,
        ((r.WriteString (boxTop ++ "\n")).WriteString
          (concatLines ((codeBlockLines node).map boxRow))).WriteString
          (boxBottom ++ "\n\n")) := by
  have h : renderCodeBlock r node true =
      match codeBlockRows (codeBlockLines node) with
      | none => none
      | some rows =>
        some (WalkSkipChildren,
          ((r.WriteString ("┌" ++ repeatString "─" 64 ++ "┐\n")).WriteString rows).WriteString
            ("└" ++ repeatString "─" 64 ++ "┘\n\n")) := rfl
  rw [h, codeBlockRows_eq]
  have e1 : "┌" ++ repeatString "─" 64 ++ "┐\n" = boxTop ++ "\n" := by decide
  have e2 : "└" ++ repeatString "─" 64 ++ "┘\n\n" = boxBottom ++ "\n\n" := by decide
  simp only [e1, e2]

theorem splitLines_no_newline (cs : List Char) : ∀ l ∈ splitLines cs, '\n' ∉ l := by
  induction cs with
  | nil =>
    intro l hl
    simp only [splitLines, List.mem_singleton] at hl
    subst hl
    exact List.not_mem_nil _
  | cons c t ih =>
    intro l hl
    simp only [splitLines] at hl
    split at hl
    · rcases List.mem_cons.mp hl with h | h
      · subst h; exact List.not_mem_nil _
      · exact ih l h
    · rename_i hc
      split at hl
      · rename_i l0 ls heq
        rcases List.mem_cons.mp hl with h | h
        · subst h
          intro hm
          rcases List.mem_cons.mp hm with h1 | h1
          · exact hc h1.symm
          · exact ih l0 (by rw [heq]; exact List.mem_cons_self _ _) h1
        · exact ih l (by rw [heq]; exact List.mem_cons_of_mem _ h)
      · simp only [List.mem_singleton] at hl
        subst hl
        intro hm
        simp only [List.mem_singleton] at hm
        exact hc hm.symm

theorem codeBlockLines_no_newline (node : Node) :
    ∀ line ∈ codeBlockLines node, '\n' ∉ line.data := by
  intro line hl
  simp only [codeBlockLines, List.mem_map] at hl
  obtain ⟨l, hmem, rfl⟩ := hl
  exact splitLines_no_newline _ l hmem

theorem mem_replaceAllAux (old new : List Char) (c : Char) :
    ∀ (s : List Char) (k : Nat), c ∈ replaceAllAux old new k s → c ∈ s ∨ c ∈ new := by
  intro s
  induction s with
  | nil => intro k h; simp [replaceAllAux] at h
  | cons a t ih =>
    intro k h
    cases k with
    | succ k =>
      simp only [replaceAllAux] at h
      rcases ih k h with h1 | h1
      · exact Or.inl (List.mem_cons_of_mem _ h1)
      · exact Or.inr h1
    | zero =>
      simp only [replaceAllAux] at h
      split at h
      · rcases List.mem_append.mp h with h1 | h1
        · exact Or.inr h1
        · rcases ih _ h1 with h2 | h2
          · exact Or.inl (List.mem_cons_of_mem _ h2)
          · exact Or.inr h2
      · rcases List.mem_cons.mp h with h1 | h1
        · exact Or.inl (by rw [h1]; exact List.mem_cons_self _ _)
        · rcases ih _ h1 with h2 | h2
          · exact Or.inl (List.mem_cons_of_mem _ h2)
          · exact Or.inr h2

theorem expandTabs_no_newline (line : String) (h : '\n' ∉ line.data) :
    '\n' ∉ (expandTabs line).data := by
  intro hm
  rcases mem_replaceAllAux _ _ _ _ _ hm with h1 | h1
  · exact h h1
  · revert h1; decide

theorem ofNat_eq_newline (n : Nat) (h : Char.ofNat n = '\n') : n = 10 := by
  by_cases hv : n.isValidChar
  · have e : (Char.ofNat n).toNat = n := by
      simp only [Char.ofNat, hv, dite_true, Char.ofNatAux, Char.toNat, UInt32.toNat]
      rfl
    rw [h] at e
    exact e.symm
  · have e : Char.ofNat n = Char.ofNat 0 := by
      simp only [Char.ofNat, hv, dite_false]
      rfl
    rw [e] at h
    exact absurd h (by decide)

theorem toNat_ne_ten (c : Char) (h : c ≠ '\n') : c.toNat ≠ 10 := by
  intro e
  apply h
  rw [← Char.ofNat_toNat c, e]

theorem utf8EncodeChar_no_ten (c : Char) (h : c ≠ '\n') : 10 ∉ utf8EncodeChar c := by
  have h10 := toNat_ne_ten c h
  unfold utf8EncodeChar
  simp only
  split
  · simp only [List.mem_singleton]; omega
  · split
    · simp only [List.mem_cons, List.mem_singleton, List.not_mem_nil, or_false]; omega
    · split
      · simp only [List.mem_cons, List.mem_singleton, List.not_mem_nil, or_false]; omega
      · simp only [List.mem_cons, List.mem_singleton, List.not_mem_nil, or_false]; omega

theorem utf8EncodeString_no_ten (s : String) (h : '\n' ∉ s.data) :
    10 ∉ utf8EncodeString s := by
  intro hm
  simp only [utf8EncodeString, List.mem_flatMap] at hm
  obtain ⟨c, hc, hb⟩ := hm
  exact utf8EncodeChar_no_ten c (fun e => h (e ▸ hc)) hb

theorem decodeRune_ne_newline (b : Nat) (t : List Nat) (hb : b ≠ 10) :
    (decodeRune (b :: t)).1 ≠ '\n' := by
  have hR : RuneError ≠ '\n' := by decide
  simp only [decodeRune]
  repeat' split
  all_goals first
    | exact hR
    | (intro h
       have := ofNat_eq_newline _ h
       omega)

theorem runesAux_no_newline (fuel : Nat) :
    ∀ (bs : List Nat), 10 ∉ bs → '\n' ∉ runesAux fuel bs := by
  induction fuel with
  | zero => intro bs _; simp [runesAux]
  | succ n ih =>
    intro bs h
    cases bs with
    | nil => simp [runesAux]
    | cons b t =>
      simp only [runesAux]
      intro hm
      rcases List.mem_cons.mp hm with h1 | h1
      · exact decodeRune_ne_newline b t (fun e => h (e ▸ List.mem_cons_self _ _)) h1.symm
      · exact ih _ (fun hd => h (List.mem_of_mem_drop hd)) h1

theorem rowContent_no_newline (line : String) (h : '\n' ∉ line.data) :
    '\n' ∉ (rowContent line).data := by
  unfold rowContent
  split
  · apply runesAux_no_newline
    intro hm
    rcases List.mem_append.mp hm with h1 | h1
    · exact utf8EncodeString_no_ten _ (expandTabs_no_newline line h) (List.mem_of_mem_take h1)
    · revert h1; decide
  · exact expandTabs_no_newline line h

theorem boxRow_no_newline (line : String) (h : '\n' ∉ line.data) :
    '\n' ∉ (boxRow line).data := by
  simp only [boxRow, String.data_append, List.mem_append, spaces, not_or]
  refine ⟨⟨⟨by decide, rowContent_no_newline line h⟩, ?_⟩, by decide⟩
  intro hm
  have := List.eq_of_mem_replicate hm
  revert this; decide

/-- C12: for every code block the handler writes the top border, one row per
line of the content and the bottom border, each followed by a newline (two
after the bottom border); the borders and every row have exactly 66 code
points and hold no newline, whatever the lines contain, and the number of
padding spaces asked for, `64 - n - 2` for a row content of `n` code points,
is never negative, so no row makes the handler panic. -/
theorem C12_code_block_fixed_width (r : UnicodeRenderer) (node : Node) :
    renderCodeBlock r node true =
      some (WalkSkipChildren,
        ((r.WriteString (boxTop ++ "\n")).WriteString
          (concatLines ((codeBlockLines node).map boxRow))).WriteString
          (boxBottom ++ "\n\n")) ∧
    (boxTop.length = 66 ∧ '\n' ∉ boxTop.data) ∧
    (boxBottom.length = 66 ∧ '\n' ∉ boxBottom.data) ∧
    (∀ line ∈ codeBlockLines node, (boxRow line).length = 66 ∧ '\n' ∉ (boxRow line).data) ∧
    (∀ line : String,
      codeBlockRow line = some (boxRow line ++ "\n") ∧ (boxRow line).length = 66 ∧
      (0 : Int) ≤ 64 - ((rowContent line).length : Int) - 2) := by
  refine ⟨renderCodeBlock_eq r node, ⟨by decide, by decide⟩, ⟨by decide, by decide⟩, ?_, ?_⟩
  · intro line hl
    exact ⟨boxRow_length line, boxRow_no_newline line (codeBlockLines_no_newline node line hl)⟩
  · intro line
    have := rowContent_length_le line
    exact ⟨codeBlockRow_eq line, boxRow_length line, by omega⟩

/-- C13, at the failing input: a line of 59 letters "é" (two bytes each) is cut
after its first 58 bytes, so the row holds 29 letters and the ellipsis, not the
first 58 letters; a line cut inside a letter shows a replacement character
before the ellipsis.  A line of 59 ASCII letters keeps its first 58 letters,
and a line of at most 58 code points is kept whole; in every case the content
is padded to 62 code points. -/
theorem C13_truncation_counts_bytes :
    codeBlockRow ⟨List.replicate 59 'é'⟩ =
      some ("│ " ++ ⟨List.replicate 29 'é'⟩ ++ "…" ++ spaces 32 ++ " │\n") ∧
    codeBlockRow ("a" ++ ⟨List.replicate 58 'é'⟩) =
      some ("│ " ++ "a" ++ ⟨List.replicate 28 'é'⟩ ++ ⟨[Char.ofNat 0xFFFD]⟩ ++ "…" ++
        spaces 31 ++ " │\n") ∧
    codeBlockRow ⟨List.replicate 59 'x'⟩ =
      some ("│ " ++ ⟨List.replicate 58 'x'⟩ ++ "…" ++ spaces 3 ++ " │\n") ∧
    (∀ line : String, (expandTabs line).length ≤ 58 →
      codeBlockRow line =
        some ("│ " ++ expandTabs line ++ spaces (62 - (expandTabs line).length) ++ " │\n")) ∧
    (∀ line : String, ∃ content : String, content.length ≤ 62 ∧
      codeBlockRow line = some ("│ " ++ content ++ spaces (62 - content.length) ++ " │\n")) := by
  refine ⟨by decide!, by decide!, by decide!, ?_, ?_⟩
  · intro line h
    have e : rowContent line = expandTabs line := by
      unfold rowContent
      rw [if_neg (by omega)]
    rw [codeBlockRow_eq, boxRow, e, String.append_assoc]
    rfl
  · intro line
    refine ⟨rowContent line, ?_, ?_⟩
    · have := rowContent_length_le line
      omega
    · rw [codeBlockRow_eq, boxRow, String.append_assoc]
      rfl

theorem collapseNewlines_data (s : String) :
    (collapseNewlines s).data = collapseAux 0 s.data := rfl

theorem noLeadingNewline_cases (l : List Char) (h : NoLeadingNewline l) :
    l = [] ∨ ∃ c t, l = c :: t ∧ c ≠ '\n' := by
  cases l with
  | nil => exact Or.inl rfl
  | cons c t =>
    refine Or.inr ⟨c, t, rfl, ?_⟩
    intro hc
    exact h (by rw [hc]; rfl)

theorem noLeadingNewline_cons (c : Char) (t : List Char) (h : c ≠ '\n') :
    NoLeadingNewline (c :: t) := by
  intro hh
  simp only [List.head?_cons, Option.some.injEq] at hh
  exact h hh

theorem noLeadingNewline_nil : NoLeadingNewline [] := by
  intro hh; cases hh

theorem takeWhile_newline_run (n : Nat) (rest : List Char) (h : NoLeadingNewline rest) :
    ((List.replicate n '\n' ++ rest).takeWhile (fun x => x == '\n')).length = n := by
  induction n with
  | zero =>
    rcases noLeadingNewline_cases rest h with rfl | ⟨c, t, rfl, hc⟩
    · rfl
    · simp [List.takeWhile_cons, hc]
  | succ n ih =>
    rw [List.replicate_succ, List.cons_append, List.takeWhile_cons]
    simp only [beq_self_eq_true, if_true, List.length_cons, ih]

theorem collapseAux_skip (xs rest : List Char) :
    collapseAux xs.length (xs ++ rest) = collapseAux 0 rest := by
  induction xs with
  | nil => rfl
  | cons x t ih =>
    cases hr : t ++ rest with
    | nil =>
      have e1 : t = [] := (List.append_eq_nil.mp hr).1
      have e2 : rest = [] := (List.append_eq_nil.mp hr).2
      subst e1; subst e2
      simp [collapseAux]
    | cons y u =>
      rw [List.cons_append, List.length_cons, collapseAux, ih]

theorem collapse_other (c : Char) (cs : List Char) (h : c ≠ '\n') :
    collapseAux 0 (c :: cs) = c :: collapseAux 0 cs := by
  simp [collapseAux, List.takeWhile_cons, h]

/-- The collapse of a run of `n` newlines that ends the text or is followed by
another character. -/
theorem collapse_run (n : Nat) (rest : List Char) (h : NoLeadingNewline rest) :
    collapseAux 0 (List.replicate n '\n' ++ rest) = newlineRun n ++ collapseAux 0 rest := by
  have h1 := takeWhile_newline_run 1 rest h
  have h2 := takeWhile_newline_run 2 rest h
  match n with
  | 0 => simp [newlineRun]
  | 1 =>
    simp only [List.replicate_succ, List.replicate_zero, List.cons_append, List.nil_append]
      at h1 ⊢
    simp only [collapseAux, h1]
    simp [newlineRun]
  | 2 =>
    simp only [List.replicate_succ, List.replicate_zero, List.cons_append, List.nil_append]
      at h1 h2 ⊢
    simp only [collapseAux, h1, h2]
    simp [newlineRun]
  | k + 3 =>
    have hk := takeWhile_newline_run (k + 3) rest h
    have hs := collapseAux_skip (List.replicate (k + 2) '\n') rest
    rw [List.length_replicate] at hs
    rw [List.replicate_succ, List.cons_append] at hk ⊢
    rw [collapseAux]
    simp only [hk]
    rw [if_pos (by omega), show k + 3 - 1 = k + 2 by omega, hs]
    simp [newlineRun, List.replicate_succ]

theorem newline_run_decomp (l : List Char) :
    ∃ n rest, l = List.replicate n '\n' ++ rest ∧ NoLeadingNewline rest := by
  induction l with
  | nil => exact ⟨0, [], rfl, noLeadingNewline_nil⟩
  | cons c t ih =>
    by_cases hc : c = '\n'
    · obtain ⟨n, rest, e, hr⟩ := ih
      exact ⟨n + 1, rest, by rw [e, hc, List.replicate_succ, List.cons_append], hr⟩
    · exact ⟨0, c :: t, rfl, noLeadingNewline_cons c t hc⟩

/-- The text can be cut at any character that is not a newline. -/
theorem collapse_split (c : Char) (hc : c ≠ '\n') (b : List Char) :
    ∀ (m : Nat) (a : List Char), a.length = m →
      collapseAux 0 (a ++ c :: b) = collapseAux 0 a ++ c :: collapseAux 0 b := by
  intro m
  induction m using Nat.strong_induction_on with
  | _ m ih =>
    intro a hlen
    obtain ⟨n, rest, e, hr⟩ := newline_run_decomp a
    rcases noLeadingNewline_cases rest hr with rfl | ⟨d, t, rfl, hd⟩
    · rw [e, List.append_nil, collapse_run n (c :: b) (noLeadingNewline_cons c b hc),
        collapse_other c b hc]
      have := collapse_run n [] noLeadingNewline_nil
      rw [List.append_nil] at this
      rw [this]
      simp [collapseAux]
    · have hlt : t.length < m := by
        rw [← hlen, e]; simp; omega
      rw [e, List.append_assoc, List.cons_append,
        collapse_run n _ (noLeadingNewline_cons d _ hd), collapse_other d _ hd,
        ih t.length hlt t rfl, collapse_run n _ (noLeadingNewline_cons d _ hd),
        collapse_other d _ hd]
      simp

/-- A maximal run of `n` newlines between `pre` and `post`. -/
theorem collapse_between (n : Nat) (pre post : List Char) (hpre : NoTrailingNewline pre)
    (hpost : NoLeadingNewline post) :
    collapseAux 0 (pre ++ (List.replicate n '\n' ++ post)) =
      collapseAux 0 pre ++ (newlineRun n ++ collapseAux 0 post) := by
  rcases List.eq_nil_or_concat pre with rfl | ⟨p, c, rfl⟩
  · simp [collapseAux, collapse_run n post hpost]
  · rw [List.concat_eq_append] at hpre ⊢
    have hc : c ≠ '\n' := by
      intro e; apply hpre; rw [e]; simp
    rw [List.append_assoc, List.singleton_append,
      collapse_split c hc _ p.length p rfl, collapse_run n post hpost,
      collapse_split c hc [] p.length p rfl]
    simp [collapseAux]

theorem newlineRun_fixed (n : Nat) (rest : List Char) (h : NoLeadingNewline rest) :
    collapseAux 0 (newlineRun n ++ rest) = newlineRun n ++ collapseAux 0 rest := by
  have e : (if (if n ≥ 3 then 2 else n) ≥ 3 then 2 else (if n ≥ 3 then 2 else n)) =
      (if n ≥ 3 then 2 else n) := by
    split_ifs <;> omega
  unfold newlineRun
  rw [collapse_run _ rest h]
  unfold newlineRun
  rw [e]

theorem collapse_idempotent_list :
    ∀ (m : Nat) (l : List Char), l.length = m →
      collapseAux 0 (collapseAux 0 l) = collapseAux 0 l := by
  intro m
  induction m using Nat.strong_induction_on with
  | _ m ih =>
    intro l hlen
    obtain ⟨n, rest, e, hr⟩ := newline_run_decomp l
    rcases noLeadingNewline_cases rest hr with rfl | ⟨d, t, rfl, hd⟩
    · rw [e, collapse_run n [] hr]
      simp only [collapseAux, List.append_nil]
      have := newlineRun_fixed n [] noLeadingNewline_nil
      simpa [collapseAux] using this
    · have hlt : t.length < m := by
        rw [← hlen, e]; simp; omega
      rw [e, collapse_run n _ hr, collapse_other d t hd,
        newlineRun_fixed n _ (noLeadingNewline_cons d _ hd), collapse_other d _ hd,
        ih t.length hlt t rfl]

theorem noTriple_short_run (m : Nat) (hm : m ≤ 2) :
    ¬ ['\n', '\n', '\n'] <:+: List.replicate m '\n' := by
  intro h
  have := h.length_le
  simp only [List.length_cons, List.length_nil, List.length_replicate] at this
  omega

theorem noTriple_run_cons (m : Nat) (hm : m ≤ 2) (c : Char) (hc : c ≠ '\n') (y : List Char)
    (hy : ¬ ['\n', '\n', '\n'] <:+: y) :
    ¬ ['\n', '\n', '\n'] <:+: List.replicate m '\n' ++ c :: y := by
  have hc2 : ¬ '\n' = c := fun e => hc e.symm
  have h0 : ¬ ['\n', '\n', '\n'] <:+: c :: y := by
    rw [List.infix_cons_iff, List.cons_prefix_cons]
    rintro (⟨e, _⟩ | h)
    · exact hc2 e
    · exact hy h
  have h1 : ¬ ['\n', '\n', '\n'] <:+: '\n' :: c :: y := by
    rw [List.infix_cons_iff, List.cons_prefix_cons, List.cons_prefix_cons]
    rintro (⟨_, e, _⟩ | h)
    · exact hc2 e
    · exact h0 h
  have h2 : ¬ ['\n', '\n', '\n'] <:+: '\n' :: '\n' :: c :: y := by
    rw [List.infix_cons_iff, List.cons_prefix_cons, List.cons_prefix_cons,
      List.cons_prefix_cons]
    rintro (⟨_, _, e, _⟩ | h)
    · exact hc2 e
    · exact h1 h
  match m, hm with
  | 0, _ => exact h0
  | 1, _ => exact h1
  | 2, _ => exact h2

theorem newlineRun_eq (n : Nat) : ∃ m, m ≤ 2 ∧ newlineRun n = List.replicate m '\n' := by
  refine ⟨if n ≥ 3 then 2 else n, ?_, rfl⟩
  split <;> omega

/-- The collapsed text has no three newlines in a row. -/
theorem collapse_no_triple :
    ∀ (m : Nat) (l : List Char), l.length = m →
      ¬ ['\n', '\n', '\n'] <:+: collapseAux 0 l := by
  intro m
  induction m using Nat.strong_induction_on with
  | _ m ih =>
    intro l hlen
    obtain ⟨n, rest, e, hr⟩ := newline_run_decomp l
    obtain ⟨k, hk, ek⟩ := newlineRun_eq n
    rcases noLeadingNewline_cases rest hr with rfl | ⟨d, t, rfl, hd⟩
    · rw [e, collapse_run n [] hr, ek]
      simp only [collapseAux, List.append_nil]
      exact noTriple_short_run k hk
    · have hlt : t.length < m := by
        rw [← hlen, e]; simp; omega
      rw [e, collapse_run n _ hr, collapse_other d t hd, ek]
      exact noTriple_run_cons k hk d hd _ (ih t.length hlt t rfl)

theorem stringsTrimSpace_data (s : String) :
    (stringsTrimSpace s).data = List.rdropWhile isSpace (s.data.dropWhile isSpace) := rfl

theorem trim_within (l : List Char) :
    List.rdropWhile isSpace (l.dropWhile isSpace) <:+: l :=
  (List.rdropWhile_prefix isSpace _).isInfix.trans (List.dropWhile_suffix isSpace).isInfix

theorem trim_head_not_space (l : List Char) (c : Char)
    (h : (List.rdropWhile isSpace (l.dropWhile isSpace)).head? = some c) : isSpace c = false := by
  have hp := List.rdropWhile_prefix isSpace (l.dropWhile isSpace)
  cases hx : List.rdropWhile isSpace (l.dropWhile isSpace) with
  | nil => rw [hx] at h; cases h
  | cons a t =>
    rw [hx] at h hp
    simp only [List.head?_cons, Option.some.injEq] at h
    subst h
    cases hy : l.dropWhile isSpace with
    | nil => rw [hy] at hp; simp at hp
    | cons b u =>
      rw [hy, List.cons_prefix_cons] at hp
      have hb := List.head?_dropWhile_not isSpace l
      rw [hy] at hb
      simp only [List.head?_cons] at hb
      rw [hp.1]
      exact hb

theorem trim_last_not_space (l : List Char) (c : Char)
    (h : (List.rdropWhile isSpace (l.dropWhile isSpace)).getLast? = some c) :
    isSpace c = false := by
  have hne : List.rdropWhile isSpace (l.dropWhile isSpace) ≠ [] := by
    intro e; rw [e] at h; cases h
  have hl := List.rdropWhile_last_not isSpace (l.dropWhile isSpace) hne
  rw [List.getLast?_eq_getLast _ hne] at h
  simp only [Option.some.injEq] at h
  rw [h] at hl
  simpa using hl

/-- C16: when `Convert` returns a string, the string neither starts nor ends
with a white-space character and holds no three newlines in a row. -/
theorem C16_convert_output_trimmed (parse : String → Node) (inp : String) (config : Config)
    (out : String) (h : Convert parse inp config = some out) :
    (∀ c, out.data.head? = some c → isSpace c = false) ∧
    (∀ c, out.data.getLast? = some c → isSpace c = false) ∧
    ¬ ("\n\n\n".data <:+: out.data) := by
  unfold Convert at h
  split at h
  · cases h
  · rename_i result _
    simp only [Option.some.injEq] at h
    subst h
    rw [stringsTrimSpace_data]
    refine ⟨fun c hc => trim_head_not_space _ c hc, fun c hc => trim_last_not_space _ c hc, ?_⟩
    intro hi
    exact collapse_no_triple _ _ rfl (hi.trans (trim_within _))

/-- Witness of C16 on the tree of `# Hello`. -/
theorem C16_convert_output_trimmed_witness :
    (∀ c, ("█ 𝗛𝗲𝗹𝗹𝗼\n" ++ repeatString "═" 50).data.head? = some c → isSpace c = false) ∧
    (∀ c, ("█ 𝗛𝗲𝗹𝗹𝗼\n" ++ repeatString "═" 50).data.getLast? = some c → isSpace c = false) ∧
    ¬ ("\n\n\n".data <:+: ("█ 𝗛𝗲𝗹𝗹𝗼\n" ++ repeatString "═" 50).data) :=
  C16_convert_output_trimmed (fun _ => exampleHeading) "# Hello" DefaultConfig
    ("█ 𝗛𝗲𝗹𝗹𝗼\n" ++ repeatString "═" 50) (by decide!)

/-- C17: the collapse pass turns a maximal run of `n` newlines (between a text
that does not end with a newline and a text that does not start with one) into
two newlines when `n ≥ 3` and leaves it as it is when `n` is 1 or 2; every
other character stays where it is, the text on both sides of it being
collapsed on its own; and collapsing twice is the same as collapsing once. -/
theorem C17_collapse_runs_idempotent (pre post : String) (n : Nat)
    (hpre : NoTrailingNewline pre.data) (hpost : NoLeadingNewline post.data) :
    collapseNewlines (pre ++ ⟨List.replicate n '\n'⟩ ++ post) =
      collapseNewlines pre ++ ⟨List.replicate (if n ≥ 3 then 2 else n) '\n'⟩ ++
        collapseNewlines post ∧
    (∀ (a b : String) (c : Char), c ≠ '\n' →
      collapseNewlines (a ++ String.singleton c ++ b) =
        collapseNewlines a ++ String.singleton c ++ collapseNewlines b) ∧
    (∀ s : String, collapseNewlines (collapseNewlines s) = collapseNewlines s) ∧
    collapseNewlines "a\n\n\n\n\nb\n\nc\nd\n\n\n" = "a\n\nb\n\nc\nd\n\n" := by
  refine ⟨?_, ?_, ?_, by decide⟩
  · apply String.ext
    simp only [collapseNewlines_data, String.data_append, List.append_assoc]
    exact collapse_between n pre.data post.data hpre hpost
  · intro a b c hc
    apply String.ext
    simp only [collapseNewlines_data, String.data_append, List.append_assoc]
    exact collapse_split c hc b.data a.data.length a.data rfl
  · intro s
    apply String.ext
    simp only [collapseNewlines_data]
    exact collapse_idempotent_list _ s.data rfl

/-- Witness of C17 with a run of four newlines between "x" and "y". -/
theorem C17_collapse_runs_idempotent_witness :
    collapseNewlines ("x" ++ ⟨List.replicate 4 '\n'⟩ ++ "y") =
      collapseNewlines "x" ++ ⟨List.replicate (if 4 ≥ 3 then 2 else 4) '\n'⟩ ++
        collapseNewlines "y" :=
  (C17_collapse_runs_idempotent "x" "y" 4 (by unfold NoTrailingNewline; decide)
    (by unfold NoLeadingNewline; decide)).1

theorem doubleHyphen_cons_other (c : Char) (hc : c ≠ '-') (x : List Char) :
    ['-', '-'] <:+: c :: x ↔ ['-', '-'] <:+: x := by
  rw [List.infix_cons_iff, List.cons_prefix_cons]
  constructor
  · rintro (⟨e, _⟩ | h)
    · exact absurd e.symm hc
    · exact h
  · exact fun h => Or.inr h

theorem doubleHyphen_emDashes (k : Nat) (x : List Char) :
    ['-', '-'] <:+: List.replicate k '—' ++ x ↔ ['-', '-'] <:+: x := by
  induction k with
  | zero => simp
  | succ k ih =>
    rw [List.replicate_succ, List.cons_append, doubleHyphen_cons_other _ (by decide), ih]

theorem noDoubleHyphen_single (z : List Char) (hz : NoLeadingHyphen z)
    (h : ¬ ['-', '-'] <:+: z) : ¬ ['-', '-'] <:+: '-' :: z := by
  rw [List.infix_cons_iff, List.cons_prefix_cons]
  rintro (⟨_, hp⟩ | hi)
  · rcases noLeadingHyphen_cases z hz with rfl | ⟨d, t, rfl, hd⟩
    · simp at hp
    · rw [List.cons_prefix_cons] at hp
      exact hd hp.1.symm
  · exact h hi

theorem noDoubleHyphen_dashRun (n : Nat) (z : List Char) (hz : NoLeadingHyphen z)
    (h : ¬ ['-', '-'] <:+: z) : ¬ ['-', '-'] <:+: dashRun n ++ z := by
  unfold dashRun
  rw [List.append_assoc, doubleHyphen_emDashes]
  split
  · rw [List.singleton_append, doubleHyphen_cons_other _ (by decide)]
    exact h
  · split
    · exact noDoubleHyphen_single z hz h
    · exact h

theorem smartDashes_noLeadingHyphen (l : List Char) (h : NoLeadingHyphen l) :
    NoLeadingHyphen (replacePair (replaceTriple l)) := by
  rcases noLeadingHyphen_cases l h with rfl | ⟨c, t, rfl, hc⟩
  · exact noLeadingHyphen_nil
  · rw [smartDashes_cons_other c t hc]
    exact noLeadingHyphen_cons c _ hc

/-- The converted text has no two hyphens in a row. -/
theorem smartDashes_no_double :
    ∀ (m : Nat) (l : List Char), l.length = m →
      ¬ ['-', '-'] <:+: replacePair (replaceTriple l) := by
  intro m
  induction m using Nat.strong_induction_on with
  | _ m ih =>
    intro l hlen
    obtain ⟨n, rest, e, hr⟩ := run_decomp l
    rw [e, smartDashes_run n rest hr]
    apply noDoubleHyphen_dashRun n _ (smartDashes_noLeadingHyphen rest hr)
    rcases noLeadingHyphen_cases rest hr with rfl | ⟨d, t, rfl, hd⟩
    · intro hi
      have := hi.length_le
      simp [replaceTriple_nil, replacePair_nil] at this
    · have hlt : t.length < m := by
        rw [← hlen, e]; simp; omega
      rw [smartDashes_cons_other d t hd, doubleHyphen_cons_other d hd]
      exact ih t.length hlt t rfl

/-- A text without two hyphens in a row is left as it is. -/
theorem smartDashes_fixed :
    ∀ (m : Nat) (l : List Char), l.length = m → ¬ ['-', '-'] <:+: l →
      replacePair (replaceTriple l) = l := by
  intro m
  induction m using Nat.strong_induction_on with
  | _ m ih =>
    intro l hlen hnd
    obtain ⟨n, rest, e, hr⟩ := run_decomp l
    have hn : n ≤ 1 := by
      by_contra hgt
      apply hnd
      obtain ⟨k, rfl⟩ : ∃ k, n = k + 2 := ⟨n - 2, by omega⟩
      rw [e, List.replicate_succ, List.replicate_succ]
      exact ⟨[], List.replicate k '-' ++ rest, by simp⟩
    have hrun : dashRun n = List.replicate n '-' := by
      rcases Nat.le_one_iff_eq_zero_or_eq_one.mp hn with h0 | h1
      · subst h0; rfl
      · subst h1; rfl
    rw [e, smartDashes_run n rest hr, hrun]
    congr 1
    rcases noLeadingHyphen_cases rest hr with rfl | ⟨d, t, rfl, hd⟩
    · rfl
    · have hlt : t.length < m := by
        rw [← hlen, e]; simp; omega
      have hsub : t <:+: l := by
        rw [e]
        exact ⟨List.replicate n '-' ++ [d], [], by simp⟩
      rw [smartDashes_cons_other d t hd, ih t.length hlt t rfl (fun hi => hnd (hi.trans hsub))]

/-- C25: `toSmartDashes` turns a maximal run of `n ≥ 1` hyphens (between a text
that does not end with a hyphen and a text that does not start with one) into
`n / 3` em dashes followed by an en dash when `n mod 3 = 2`, by a hyphen when
`n mod 3 = 1` and by nothing when `n mod 3 = 0`; every other character stays
where it is, the text on both sides of it being converted on its own; the
output never holds two hyphens in a row, and converting twice is the same as
converting once. -/
theorem C25_smart_dashes_runs (pre post : String) (n : Nat) (_hn : 1 ≤ n)
    (hpre : NoTrailingHyphen pre.data) (hpost : NoLeadingHyphen post.data) :
    toSmartDashes (pre ++ ⟨List.replicate n '-'⟩ ++ post) =
      toSmartDashes pre ++
        ⟨List.replicate (n / 3) '—' ++
          (if n % 3 = 2 then ['–'] else if n % 3 = 1 then ['-'] else [])⟩ ++
        toSmartDashes post ∧
    (∀ (a b : String) (c : Char), c ≠ '-' →
      toSmartDashes (a ++ String.singleton c ++ b) =
        toSmartDashes a ++ String.singleton c ++ toSmartDashes b) ∧
    (∀ s : String, ¬ ("--".data <:+: (toSmartDashes s).data)) ∧
    (∀ s : String, toSmartDashes (toSmartDashes s) = toSmartDashes s) ∧
    toSmartDashes "----" = "—-" ∧ toSmartDashes "-----" = "—–" ∧
    toSmartDashes "a------b-c" = "a——b-c" := by
  refine ⟨?_, ?_, ?_, ?_, by decide, by decide, by decide⟩
  · apply String.ext
    simp only [toSmartDashes_data, String.data_append, List.append_assoc]
    have h := smartDashes_between n pre.data post.data hpre hpost
    unfold dashRun at h
    rw [List.append_assoc] at h
    exact h
  · intro a b c hc
    apply String.ext
    simp only [toSmartDashes_data, String.data_append, List.append_assoc]
    exact smartDashes_split c hc b.data a.data.length a.data rfl
  · intro s
    rw [toSmartDashes_data]
    exact smartDashes_no_double _ s.data rfl
  · intro s
    apply String.ext
    rw [toSmartDashes_data, toSmartDashes_data]
    exact smartDashes_fixed _ _ rfl (smartDashes_no_double _ s.data rfl)

/-- Witness of C25 with a run of seven hyphens between "x" and "y". -/
theorem C25_smart_dashes_runs_witness :
    toSmartDashes ("x" ++ ⟨List.replicate 7 '-'⟩ ++ "y") =
      toSmartDashes "x" ++
        ⟨List.replicate (7 / 3) '—' ++
          (if 7 % 3 = 2 then ['–'] else if 7 % 3 = 1 then ['-'] else [])⟩ ++
        toSmartDashes "y" :=
  (C25_smart_dashes_runs "x" "y" 7 (by decide) (by unfold NoTrailingHyphen; decide)
    (by unfold NoLeadingHyphen; decide)).1

theorem getCircledLetter_of_pos (num : Int) (h0 : 1 ≤ num)
    (h1 : num ≤ 9223372036854775807) : ∃ m, getCircledLetter num = some m := by
  unfold getCircledLetter
  by_cases h : num ≥ 1 ∧ num ≤ 26
  · rw [if_pos h]
    exact ⟨_, index_circledLetters _ (by omega) (by omega)⟩
  · rw [if_neg h, wrapInt64_of_range (num - 1) (by omega) (by omega)]
    have hm0 : 0 ≤ Int.tmod (num - 1) 26 := Int.tmod_nonneg _ (by omega)
    have hm1 : Int.tmod (num - 1) 26 < 26 := Int.tmod_lt_of_pos _ (by decide)
    rw [index_circledLetters _ hm0 hm1]
    simp only []
    split
    · exact ⟨_, rfl⟩
    · exact ⟨_, rfl⟩

theorem tmod_nonpos (a : Int) (h : a ≤ 0) : Int.tmod a 26 ≤ 0 := by
  obtain ⟨n, rfl⟩ := Int.exists_eq_neg_ofNat h
  cases n with
  | zero => decide
  | succ m =>
    have e : Int.tmod (-((m + 1 : Nat) : Int)) 26 = -(((m + 1) % 26 : Nat) : Int) := rfl
    rw [e]
    omega

theorem getCircledLetter_of_nonpos (num : Int) (h0 : -9223372036854775808 < num)
    (h1 : num ≤ 0) (hdiv : ¬ (26 : Int) ∣ num - 1) : getCircledLetter num = none := by
  unfold getCircledLetter
  have h : ¬ (num ≥ 1 ∧ num ≤ 26) := by omega
  rw [if_neg h, wrapInt64_of_range (num - 1) (by omega) (by omega)]
  have hm : Int.tmod (num - 1) 26 < 0 := by
    have hle : Int.tmod (num - 1) 26 ≤ 0 := tmod_nonpos (num - 1) (by omega)
    have hne : Int.tmod (num - 1) 26 ≠ 0 := fun e => hdiv (Int.dvd_of_tmod_eq_zero e)
    omega
  simp only [index, hm, if_true]

theorem getRomanNumeral_some (num : Int) (uppercase : Bool) :
    ∃ m, getRomanNumeral num uppercase = some m := by
  unfold getRomanNumeral
  by_cases h : num ≤ 0 ∨ num > 50
  · rw [if_pos h]
    cases uppercase
    · exact ⟨_, rfl⟩
    · exact ⟨_, rfl⟩
  · rw [if_neg h]
    by_cases h12 : num ≤ 12
    · rw [if_pos h12]
      cases uppercase
      · exact ⟨_, index_lowerRoman _ (by omega) (by omega)⟩
      · exact ⟨_, index_upperRoman _ (by omega) (by omega)⟩
    · rw [if_neg h12]
      cases uppercase
      · exact ⟨_, rfl⟩
      · exact ⟨_, rfl⟩

theorem getCircledNumber_some (num : Int) : ∃ m, getCircledNumber num = some m := by
  unfold getCircledNumber
  by_cases h : num ≥ 1 ∧ num ≤ 20
  · rw [if_pos h]
    exact ⟨_, index_circledNums _ (by omega) (by omega)⟩
  · rw [if_neg h]
    exact ⟨_, rfl⟩

theorem getParenthesizedNumber_some (num : Int) :
    ∃ m, getParenthesizedNumber num = some m := by
  unfold getParenthesizedNumber
  by_cases h : num ≥ 1 ∧ num ≤ 20
  · rw [if_pos h]
    exact ⟨_, index_parenNums _ (by omega) (by omega)⟩
  · rw [if_neg h]
    exact ⟨_, rfl⟩

/-- C23: `getOrderedMarker` panics at level 3 for the counter values 0 and -1,
and for every counter value `num ≤ 0` (above the least `int`) with `num - 1`
not a multiple of 26: `getCircledLetter` indexes its table with the negative
number `(num-1) % 26`.  At every other level, and at level 3 for every
`num ≥ 1`, a marker is returned.  A document of three nested ordered lists
whose innermost list starts at -1 makes the walk panic, while the same
document with the start 1 is rendered. -/
theorem C23_circled_letter_index_out_of_range :
    getOrderedMarker 0 3 = none ∧ getOrderedMarker (-1) 3 = none ∧
    (∀ num : Int, -9223372036854775808 < num → num ≤ 0 → ¬ (26 : Int) ∣ num - 1 →
      getOrderedMarker num 3 = none) ∧
    (∀ num : Int, 1 ≤ num → num ≤ 9223372036854775807 →
      ∃ m, getOrderedMarker num 3 = some m) ∧
    (∀ num level : Int, level ≠ 3 → ∃ m, getOrderedMarker num level = some m) ∧
    render DefaultConfig (exampleThreeOrdered (-1)) = none ∧
    render DefaultConfig (exampleThreeOrdered 1) =
      some "① a\n  ⑴ b\n    🅐 c\n\n\n\n" := by
  refine ⟨by decide, by decide, ?_, ?_, ?_, by decide!, by decide!⟩
  · intro num h0 h1 hdiv
    simp only [getOrderedMarker, if_true, if_false,
      show ¬ ((3 : Int) = 1) by decide, show ¬ ((3 : Int) = 2) by decide]
    exact getCircledLetter_of_nonpos num h0 h1 hdiv
  · intro num h0 h1
    simp only [getOrderedMarker, if_true, if_false,
      show ¬ ((3 : Int) = 1) by decide, show ¬ ((3 : Int) = 2) by decide]
    exact getCircledLetter_of_pos num h0 h1
  · intro num level h3
    unfold getOrderedMarker
    by_cases h1 : level = 1
    · rw [if_pos h1]; exact getCircledNumber_some num
    · rw [if_neg h1]
      by_cases h2 : level = 2
      · rw [if_pos h2]; exact getParenthesizedNumber_some num
      · rw [if_neg h2, if_neg h3]
        by_cases h4 : level = 4
        · rw [if_pos h4]; exact getRomanNumeral_some num false
        · rw [if_neg h4]
          by_cases h5 : level = 5
          · rw [if_pos h5]; exact getRomanNumeral_some num true
          · rw [if_neg h5]; exact ⟨_, rfl⟩

/-- C24: on exit of a list item the in-list-item flag is cleared and "\n\n" is
written when one of the direct children of the item is a paragraph, "\n"
otherwise, whatever lies deeper in the item; on exit of a paragraph "\n\n" is
written when the in-list-item flag is false and nothing when it is true; a
paragraph writes nothing on entry. -/
theorem C24_list_item_exit_spacing (r : UnicodeRenderer) (children : List Node) :
    renderNode r (.mk .listItem children) false =
      some (WalkContinue, ({ r with inListItem := false }).WriteString
        (if ∃ child ∈ children, child.kind = NodeKind.paragraph then "\n\n" else "\n")) ∧
    renderNode r (.mk .listItem [.mk .blockquote [.mk .paragraph children],
        .mk (.list false 0) [.mk .listItem [.mk .paragraph children]]]) false =
      some (WalkContinue, ({ r with inListItem := false }).WriteString "\n") ∧
    renderNode r (.mk .paragraph children) false =
      some (WalkContinue, if r.inListItem = false then r.WriteString "\n\n" else r) ∧
    renderNode r (.mk .paragraph children) true = some (WalkContinue, r) ∧
    render DefaultConfig (.mk .document [.mk (.list false 0)
      [.mk .listItem [.mk .paragraph [plainText "a"]]]]) = some "• a\n\n\n" ∧
    render DefaultConfig (.mk .document [.mk (.list false 0)
      [.mk .listItem [.mk .textBlock [plainText "a"]]]]) = some "• a\n\n" ∧
    render DefaultConfig (.mk .document [.mk .paragraph [plainText "a"]]) =
      some "a\n\n" := by
  refine ⟨?_, ?_, ?_, ?_, by decide!, by decide!, by decide!⟩
  · show renderListItem r (.mk .listItem children) false = _
    by_cases h : ∃ child ∈ children, child.kind = NodeKind.paragraph
    · have ha : ((Node.mk .listItem children).children.any
          fun child => decide (child.kind = NodeKind.paragraph)) = true := by
        rw [List.any_eq_true]
        obtain ⟨c, hc, hk⟩ := h
        exact ⟨c, hc, by simp [hk]⟩
      simp only [renderListItem, Bool.false_eq_true, if_false, ha, if_true, if_pos h]
    · have ha : ((Node.mk .listItem children).children.any
          fun child => decide (child.kind = NodeKind.paragraph)) = false := by
        rw [Bool.eq_false_iff]
        intro ht
        rw [List.any_eq_true] at ht
        obtain ⟨c, hc, hk⟩ := ht
        exact h ⟨c, hc, by simpa using hk⟩
      simp only [renderListItem, Bool.false_eq_true, if_false, ha, if_neg h]
  · rfl
  · simp only [renderNode, Node.kind, renderParagraph, Bool.false_eq_true, Bool.not_false,
      if_true]
    cases r.inListItem <;> rfl
  · rfl

theorem renderHeading_flag (r r' : UnicodeRenderer) (level : Int) (cs : List Node) (e : Bool)
    (st : WalkStatus) (h : renderHeading r (.mk (.heading level) cs) e = some (st, r')) :
    r'.inHeader = e := by
  cases e
  · simp only [renderHeading, Node.kind, Bool.false_eq_true, if_false] at h
    cases h
    by_cases hl : level ≤ 2
    · rw [if_pos hl]; rfl
    · rw [if_neg hl]; rfl
  · simp only [renderHeading, Node.kind, if_true] at h
    split at h
    · cases h
    · cases h
      rfl

theorem renderEmphasis_flag (r r' : UnicodeRenderer) (level : Int) (cs : List Node) (e : Bool)
    (st : WalkStatus) (h : renderEmphasis r (.mk (.emphasis level) cs) e = some (st, r')) :
    (level > 1 → r'.inStrong = e) ∧ (¬ level > 1 → r'.inItalic = e) := by
  simp only [renderEmphasis, Node.kind] at h
  by_cases hl : level > 1
  · rw [if_pos hl] at h
    cases h
    exact ⟨fun _ => rfl, fun hn => absurd hl hn⟩
  · rw [if_neg hl] at h
    cases h
    exact ⟨fun hp => absurd hp hl, fun _ => rfl⟩

theorem renderListItem_flag (r r' : UnicodeRenderer) (n : Node) (e : Bool)
    (st : WalkStatus) (h : renderListItem r n e = some (st, r')) :
    r'.inListItem = e := by
  cases e
  · simp only [renderListItem, Bool.false_eq_true, if_false] at h
    split at h <;> (cases h; rfl)
  · simp only [renderListItem, if_true] at h
    repeat' split at h
    all_goals first
      | contradiction
      | (cases h; rfl)

/-- The handler of a node that has a context flag leaves the flag equal to
`entering`. -/
theorem renderNode_contextFlag (r r' : UnicodeRenderer) (kind : NodeKind) (cs : List Node)
    (e : Bool) (st : WalkStatus) (flag : UnicodeRenderer → Bool)
    (hk : contextFlag kind = some flag)
    (h : renderNode r (.mk kind cs) e = some (st, r')) : flag r' = e := by
  cases kind <;> simp only [contextFlag] at hk
  all_goals try exact Option.noConfusion hk
  case heading level =>
    cases hk
    exact renderHeading_flag r r' level cs e st h
  case emphasis level =>
    have he := renderEmphasis_flag r r' level cs e st h
    by_cases hl : level > 1
    · rw [if_pos hl] at hk
      cases hk
      exact he.1 hl
    · rw [if_neg hl] at hk
      cases hk
      exact he.2 hl
  case listItem =>
    cases hk
    exact renderListItem_flag r r' _ e st h

/-- C22 (as stated, it fails): inside a strong span, after a nested strong span
has been walked the in-strong flag is false though it was true before, and the
text of the outer span that follows is written unstyled; likewise inside a list
item, after a nested list has been walked the in-list-item flag is false, and a
following paragraph of the outer item writes a blank line of its own. -/
theorem C22_nested_node_clears_outer_flag :
    exampleInStrong.inStrong = true ∧
    (walk (.mk (.emphasis 2) [plainText "b"]) exampleInStrong).map (fun r => r.inStrong) =
      some false ∧
    render DefaultConfig exampleNestedStrong = some "𝗮 𝗯 c\n\n" ∧
    exampleInItem.inListItem = true ∧
    (walk (.mk (.list false 0) [.mk .listItem [.mk .paragraph [plainText "b"]]])
      exampleInItem).map (fun r => r.inListItem) = some false ∧
    render DefaultConfig exampleNestedItem = some "• a\n  ◦ b\n\nc\n\n\n\n\n" := by
  refine ⟨rfl, by decide!, by decide!, rfl, by decide!, by decide!⟩

/-- C22 (amended): a node that has a context flag (heading: in-heading; emphasis
of level above 1: in-strong; other emphasis: in-italic; list item: in-list-item)
sets the flag on entry, and once its subtree has been walked and the node
exited the flag is false, whatever it was before entry; so the flag has the
value it had before entry when it was false then. -/
theorem C22_flag_cleared_on_exit (kind : NodeKind) (children : List Node)
    (flag : UnicodeRenderer → Bool) (r r' : UnicodeRenderer)
    (hk : contextFlag kind = some flag)
    (hw : walk (.mk kind children) r = some r') :
    (∃ st r1, renderNode r (.mk kind children) true = some (st, r1) ∧ flag r1 = true) ∧
    flag r' = false ∧ (flag r = false → flag r' = flag r) := by
  obtain ⟨st, r1, r2, st2, h1, _, h3⟩ := walk_unfold kind children r r' hw
  have hexit := renderNode_contextFlag r2 r' kind children false st2 flag hk h3
  exact ⟨⟨st, r1, h1, renderNode_contextFlag r r1 kind children true st flag hk h1⟩, hexit,
    fun h0 => by rw [hexit, h0]⟩

/-- Witness of C22 (amended): a strong span walked inside a strong span. -/
theorem C22_flag_cleared_on_exit_witness :
    (∃ st r1, renderNode exampleInStrong (.mk (.emphasis 2) [plainText "b"]) true =
        some (st, r1) ∧ r1.inStrong = true) ∧
    ({ NewUnicodeRenderer DefaultConfig with w := "𝗯" } : UnicodeRenderer).inStrong = false ∧
    (exampleInStrong.inStrong = false →
      ({ NewUnicodeRenderer DefaultConfig with w := "𝗯" } : UnicodeRenderer).inStrong =
        exampleInStrong.inStrong) :=
  C22_flag_cleared_on_exit (.emphasis 2) [plainText "b"] (fun r => r.inStrong) exampleInStrong
    { NewUnicodeRenderer DefaultConfig with w := "𝗯" } rfl (by decide!)

/-- Whether the children are skipped depends on the kind of the node only. -/
theorem renderNode_status (r r1 : UnicodeRenderer) (kind : NodeKind) (cs : List Node)
    (st : WalkStatus) (h : renderNode r (.mk kind cs) true = some (st, r1)) :
    st = WalkSkipChildren ↔ skipsChildren kind = true := by
  cases kind <;> simp only [renderNode, Node.kind] at h
  case text v hb =>
    simp only [renderText] at h
    repeat' split at h
    all_goals first
      | contradiction
      | (cases h; simp [skipsChildren])
  case list o s =>
    obtain ⟨r2, e, _⟩ := renderList_enter r o s cs
    rw [e] at h
    cases h
    simp [skipsChildren]
  case listItem =>
    simp only [renderListItem, if_true] at h
    repeat' split at h
    all_goals first
      | contradiction
      | (cases h; simp [skipsChildren])
  all_goals
    simp only [renderDocument, renderHeading, renderParagraph, renderEmphasis,
      renderBlockquote, renderCodeBlock, renderCodeSpan, renderLink, renderImage,
      renderThematicBreak, renderAutoLink, renderRawHTML, renderHTMLBlock, renderTextBlock,
      Node.kind] at h
    repeat' split at h
    all_goals first
      | contradiction
      | (cases h; simp [skipsChildren])

theorem runEvents_append (a b : List (Node × Bool)) :
    ∀ r : UnicodeRenderer, runEvents (a ++ b) r = (runEvents a r).bind (runEvents b) := by
  induction a with
  | nil => intro r; rfl
  | cons x a ih =>
    intro r
    obtain ⟨n, e⟩ := x
    simp only [List.cons_append, runEvents]
    cases renderNode r n e with
    | none => rfl
    | some p => exact ih p.2

mutual

/-- The walk of a tree calls the handlers on the events of the tree. -/
theorem walk_eq_runEvents : ∀ (n : Node) (r : UnicodeRenderer),
    walk n r = runEvents (events n) r
  | .mk kind children, r => by
    rw [walk, events, runEvents]
    cases h1 : renderNode r (.mk kind children) true with
    | none => rfl
    | some p1 =>
      obtain ⟨st, r1⟩ := p1
      simp only []
      rw [runEvents_append]
      have hst := renderNode_status r r1 kind children st h1
      by_cases hs : skipsChildren kind = true
      · rw [if_pos (hst.mpr hs), if_pos hs]
        simp only [runEvents, Option.some_bind]
      · rw [if_neg (fun h => hs (hst.mp h)), if_neg hs, ← walkChildren_eq_runEvents children r1]
        cases walkChildren children r1 with
        | none => rfl
        | some r2 =>
          simp only [runEvents, Option.some_bind]

theorem walkChildren_eq_runEvents : ∀ (cs : List Node) (r : UnicodeRenderer),
    walkChildren cs r = runEvents (eventsList cs) r
  | [], r => by rw [walkChildren, eventsList, runEvents]
  | c :: cs, r => by
    rw [walkChildren, eventsList, runEvents_append, ← walk_eq_runEvents c r]
    cases walk c r with
    | none => rfl
    | some r1 => exact walkChildren_eq_runEvents cs r1

end

theorem listDepth_refl (r : UnicodeRenderer) : ListDepth r r 0 :=
  ⟨by simp, by simp, by simp⟩

theorem listDepth_trans (r r1 r2 : UnicodeRenderer) (a b : Nat) (h1 : ListDepth r r1 a)
    (h2 : ListDepth r1 r2 b) : ListDepth r r2 (a + b) := by
  obtain ⟨p1, p2, p3⟩ := h1
  obtain ⟨q1, q2, q3⟩ := h2
  refine ⟨?_, ?_, ?_⟩
  · rw [q1, p1]; push_cast; ring
  · omega
  · omega

theorem listDepth_of_sameFrame (r r' : UnicodeRenderer) (h : SameFrame r r') :
    ListDepth r r' 0 := by
  obtain ⟨h1, h2, h3⟩ := h
  exact ⟨by simp [h1], by simp [h2], by simp [h3]⟩

/-- A handler leaves the list-nesting depth and the length of the two stacks as
they are, except the handler of a list. -/
theorem renderNode_depth_other (r r' : UnicodeRenderer) (kind : NodeKind) (cs : List Node)
    (e : Bool) (st : WalkStatus) (hk : ∀ o s, kind ≠ .list o s)
    (h : renderNode r (.mk kind cs) e = some (st, r')) : ListDepth r r' 0 := by
  by_cases hi : kind = .listItem
  · subst hi
    have h2 : renderListItem r (.mk .listItem cs) e = some (st, r') := h
    cases e
    · exact listDepth_of_sameFrame r r' (renderListItem_exit_frame r r' _ st h2)
    · obtain ⟨p1, p2, p3⟩ := renderListItem_enter_frame r r' _ st h2
      refine ⟨by simp [p1], by simp [p2], ?_⟩
      rcases p3 with ⟨_, c, hc, hl⟩ | ⟨_, hl⟩
      · have hne : r.listNumbers ≠ [] := by
          intro hnil
          rw [hnil] at hc
          cases hc
        have hpos : 0 < r.listNumbers.length := List.length_pos.mpr hne
        rw [hl, List.length_append, List.length_dropLast, List.length_singleton]
        omega
      · simp [hl]
  · exact listDepth_of_sameFrame r r' (renderNode_frame r r' kind cs e st hi hk h)

/-- Entering a node opens `listStep` levels: one for a list, none otherwise. -/
theorem renderNode_enter_depth (r r' : UnicodeRenderer) (kind : NodeKind) (cs : List Node)
    (st : WalkStatus) (h : renderNode r (.mk kind cs) true = some (st, r')) :
    ListDepth r r' (listStep kind) := by
  by_cases hk : ∃ o s, kind = .list o s
  · obtain ⟨o, s, rfl⟩ := hk
    obtain ⟨r1, e, p1, p2, p3, _⟩ := renderList_enter r o s cs
    have h2 : renderList r (.mk (.list o s) cs) true = some (st, r') := h
    rw [e] at h2
    cases h2
    refine ⟨by rw [p1]; rfl, by rw [p2]; simp [listStep], by rw [p3]; simp [listStep]⟩
  · have hk2 : ∀ o s, kind ≠ .list o s := fun o s hks => hk ⟨o, s, hks⟩
    have hs : listStep kind = 0 := by
      cases kind <;> first | rfl | exact absurd rfl (hk2 _ _)
    rw [hs]
    exact renderNode_depth_other r r' kind cs true st hk2 h

/-- Leaving a node closes `listStep` levels, provided the stacks hold as many
frames. -/
theorem renderNode_exit_depth (r r' : UnicodeRenderer) (kind : NodeKind) (cs : List Node)
    (st : WalkStatus) (h : renderNode r (.mk kind cs) false = some (st, r'))
    (h1 : listStep kind ≤ r.isOrdered.length) (h2 : listStep kind ≤ r.listNumbers.length) :
    ListDepth r' r (listStep kind) := by
  by_cases hk : ∃ o s, kind = .list o s
  · obtain ⟨o, s, rfl⟩ := hk
    have h3 : renderList r (.mk (.list o s) cs) false = some (st, r') := h
    obtain ⟨p1, p2, p3⟩ := renderList_exit r r' o s cs st h3
    have e1 : listStep (.list o s) = 1 := rfl
    rw [e1] at h1 h2 ⊢
    refine ⟨by rw [p1]; push_cast; ring, ?_, ?_⟩
    · rw [p2, List.length_dropLast]; omega
    · rw [p3, List.length_dropLast]; omega
  · have hk2 : ∀ o s, kind ≠ .list o s := fun o s hks => hk ⟨o, s, hks⟩
    have hs : listStep kind = 0 := by
      cases kind <;> first | rfl | exact absurd rfl (hk2 _ _)
    rw [hs]
    obtain ⟨q1, q2, q3⟩ := renderNode_depth_other r r' kind cs false st hk2 h
    exact ⟨by rw [q1]; simp, by omega, by omega⟩

theorem runEvents_cons (n : Node) (e : Bool) (t : List (Node × Bool)) (r r' : UnicodeRenderer)
    (h : runEvents ((n, e) :: t) r = some r') :
    ∃ st r1, renderNode r n e = some (st, r1) ∧ runEvents t r1 = some r' := by
  rw [runEvents] at h
  cases h1 : renderNode r n e with
  | none => rw [h1] at h; cases h
  | some p =>
    rw [h1] at h
    exact ⟨p.1, p.2, rfl, h⟩

theorem runEvents_append_some (a b : List (Node × Bool)) (r r' : UnicodeRenderer)
    (h : runEvents (a ++ b) r = some r') :
    ∃ r1, runEvents a r = some r1 ∧ runEvents b r1 = some r' := by
  rw [runEvents_append] at h
  cases h1 : runEvents a r with
  | none => rw [h1] at h; cases h
  | some r1 =>
    rw [h1] at h
    exact ⟨r1, rfl, h⟩

theorem prefix_append_cases {α : Type} (es a b : List α) (h : es <+: a ++ b) :
    es <+: a ∨ ∃ t, es = a ++ t ∧ t <+: b := by
  rcases List.prefix_or_prefix_of_prefix h (List.prefix_append a b) with h1 | h1
  · exact Or.inl h1
  · obtain ⟨t, rfl⟩ := h1
    exact Or.inr ⟨t, rfl, (List.prefix_append_right_inj a).mp h⟩

mutual

/-- After any initial part of the events of a tree, the list-nesting depth and
the two stacks have grown by the same number of levels, and by none after all
of them. -/
theorem events_depth : ∀ (n : Node) (es : List (Node × Bool)) (r r' : UnicodeRenderer),
    es <+: events n → runEvents es r = some r' →
      ∃ d, ListDepth r r' d ∧ (es = events n → d = 0)
  | .mk kind children, es, r, r', hp, hr => by
    rw [events] at hp ⊢
    rcases List.prefix_cons_iff.mp hp with rfl | ⟨t, rfl, ht⟩
    · rw [runEvents] at hr
      cases hr
      exact ⟨0, listDepth_refl r, fun _ => rfl⟩
    · obtain ⟨st, r1, h1, hr1⟩ := runEvents_cons _ _ t r r' hr
      have hin := renderNode_enter_depth r r1 kind children st h1
      rcases List.prefix_concat_iff.mp ht with rfl | ht2
      · obtain ⟨r2, hmid, hout⟩ := runEvents_append_some _ _ r1 r' hr1
        obtain ⟨st2, r3, h3, hr3⟩ := runEvents_cons _ _ [] r2 r' hout
        rw [runEvents] at hr3
        have e3 : r3 = r' := Option.some.inj hr3
        subst e3
        have hmid0 : ListDepth r1 r2 0 := by
          by_cases hs : skipsChildren kind = true
          · rw [if_pos hs, runEvents] at hmid
            rw [Option.some.inj hmid]
            exact listDepth_refl r2
          · rw [if_neg hs] at hmid
            obtain ⟨d, hd, hd0⟩ := eventsList_depth children _ r1 r2 (List.prefix_refl _) hmid
            rw [hd0 rfl] at hd
            exact hd
        obtain ⟨a1, a2, a3⟩ := hin
        obtain ⟨b1, b2, b3⟩ := hmid0
        obtain ⟨c1, c2, c3⟩ :=
          renderNode_exit_depth r2 r3 kind children st2 h3 (by omega) (by omega)
        refine ⟨0, ⟨?_, by omega, by omega⟩, fun _ => rfl⟩
        rw [b1, a1] at c1
        push_cast at c1 ⊢
        omega
      · have hlen := ht2.length_le
        have hne : ¬ ((Node.mk kind children, true) :: t =
            (Node.mk kind children, true) ::
              ((if skipsChildren kind = true then [] else eventsList children) ++
                [(Node.mk kind children, false)])) := by
          intro heq
          have := congrArg List.length heq
          simp at this
          omega
        by_cases hs : skipsChildren kind = true
        · rw [if_pos hs] at ht2
          have ht0 : t = [] := List.prefix_nil.mp ht2
          subst ht0
          rw [runEvents] at hr1
          cases hr1
          exact ⟨listStep kind, hin, fun heq => absurd heq hne⟩
        · rw [if_neg hs] at ht2
          obtain ⟨d, hd, _⟩ := eventsList_depth children t r1 r' ht2 hr1
          exact ⟨listStep kind + d, listDepth_trans r r1 r' _ _ hin hd,
            fun heq => absurd heq hne⟩

theorem eventsList_depth : ∀ (cs : List Node) (es : List (Node × Bool))
    (r r' : UnicodeRenderer), es <+: eventsList cs → runEvents es r = some r' →
      ∃ d, ListDepth r r' d ∧ (es = eventsList cs → d = 0)
  | [], es, r, r', hp, hr => by
    rw [eventsList] at hp
    have h0 : es = [] := List.prefix_nil.mp hp
    subst h0
    rw [runEvents] at hr
    cases hr
    exact ⟨0, listDepth_refl r, fun _ => rfl⟩
  | c :: cs, es, r, r', hp, hr => by
    rw [eventsList] at hp ⊢
    rcases prefix_append_cases es _ _ hp with h1 | ⟨t, rfl, ht⟩
    · obtain ⟨d, hd, hd0⟩ := events_depth c es r r' h1 hr
      refine ⟨d, hd, fun heq => hd0 ?_⟩
      have hlen := h1.length_le
      rw [heq, List.length_append] at hlen
      have hnil : eventsList cs = [] := List.length_eq_zero.mp (by omega)
      rw [heq, hnil, List.append_nil]
    · obtain ⟨r1, hr1, hr2⟩ := runEvents_append_some _ _ r r' hr
      obtain ⟨d1, hd1, hd10⟩ := events_depth c (events c) r r1 (List.prefix_refl _) hr1
      rw [hd10 rfl] at hd1
      obtain ⟨d2, hd2, hd20⟩ := eventsList_depth cs t r1 r' ht hr2
      refine ⟨d2, ?_, fun heq => hd20 (List.append_cancel_left heq)⟩
      have := listDepth_trans r r1 r' 0 d2 hd1 hd2
      rwa [Nat.zero_add] at this

end

/-- C21: the walk of a document calls the handlers on the enter and exit events
of the tree, and from a fresh renderer, after any initial part of these events,
the orderedness stack and the counter stack both have as many frames as the
list-nesting depth, which is not negative; after all the events the depth is 0
and both stacks are empty; when the orderedness stack is not empty the counter
stack has a top frame; entering a node raises the depth and both stack lengths
by one for a list and leaves them alone for every other kind, and an exit event
of the walk lowers them by one for a list and leaves them alone for every
other kind. -/
theorem C21_stack_depth_invariant (config : Config) (doc : Node)
    (es : List (Node × Bool)) (r' : UnicodeRenderer) (hpre : es <+: events doc)
    (hrun : runEvents es (NewUnicodeRenderer config) = some r') :
    walk doc (NewUnicodeRenderer config) =
      runEvents (events doc) (NewUnicodeRenderer config) ∧
    (r'.isOrdered.length : Int) = r'.listLevel ∧
    (r'.listNumbers.length : Int) = r'.listLevel ∧ 0 ≤ r'.listLevel ∧
    (es = events doc → r'.listLevel = 0 ∧ r'.isOrdered = [] ∧ r'.listNumbers = []) ∧
    (r'.isOrdered ≠ [] → ∃ c, r'.listNumbers.getLast? = some c) ∧
    (∀ (kind : NodeKind) (cs : List Node) (st : WalkStatus) (r'' : UnicodeRenderer),
      renderNode r' (.mk kind cs) true = some (st, r'') →
        r''.listLevel = r'.listLevel + listStep kind ∧
        r''.isOrdered.length = r'.isOrdered.length + listStep kind ∧
        r''.listNumbers.length = r'.listNumbers.length + listStep kind) ∧
    (∀ (kind : NodeKind) (cs : List Node) (st : WalkStatus) (r'' : UnicodeRenderer),
      es ++ [(.mk kind cs, false)] <+: events doc →
      renderNode r' (.mk kind cs) false = some (st, r'') →
        r''.listLevel + listStep kind = r'.listLevel ∧
        r''.isOrdered.length + listStep kind = r'.isOrdered.length ∧
        r''.listNumbers.length + listStep kind = r'.listNumbers.length) ∧
    listStep (.list true 1) = 1 ∧ listStep (.list false 0) = 1 ∧ listStep .listItem = 0 ∧
    (∀ kind : NodeKind, (∀ o s, kind ≠ .list o s) → listStep kind = 0) := by
  obtain ⟨d, ⟨p1, p2, p3⟩, hd0⟩ := events_depth doc es (NewUnicodeRenderer config) r' hpre hrun
  have z1 : (NewUnicodeRenderer config).listLevel = 0 := rfl
  have z2 : (NewUnicodeRenderer config).isOrdered.length = 0 := rfl
  have z3 : (NewUnicodeRenderer config).listNumbers.length = 0 := rfl
  rw [z1] at p1
  rw [z2] at p2
  rw [z3] at p3
  refine ⟨walk_eq_runEvents doc _, by rw [p1, p2]; simp, by rw [p1, p3]; simp,
    by rw [p1]; omega, ?_, ?_, ?_, ?_, rfl, rfl, rfl, ?_⟩
  · intro hall
    have hd : d = 0 := hd0 hall
    subst hd
    exact ⟨by rw [p1]; rfl, List.length_eq_zero.mp (by omega),
      List.length_eq_zero.mp (by omega)⟩
  · intro hne
    have hpos : 0 < r'.isOrdered.length := List.length_pos.mpr hne
    have hne2 : r'.listNumbers ≠ [] := by
      intro h0
      rw [h0] at p3
      simp at p3
      omega
    exact ⟨r'.listNumbers.getLast hne2, List.getLast?_eq_getLast _ hne2⟩
  · intro kind cs st r'' h
    exact renderNode_enter_depth r' r'' kind cs st h
  · intro kind cs st r'' hpre2 h
    have hrun2 : runEvents (es ++ [(Node.mk kind cs, false)]) (NewUnicodeRenderer config) =
        some r'' := by
      rw [runEvents_append, hrun]
      simp only [Option.some_bind, runEvents, h]
    obtain ⟨d2, ⟨q1, q2, q3⟩, _⟩ :=
      events_depth doc _ (NewUnicodeRenderer config) r'' hpre2 hrun2
    rw [z1] at q1
    have hstep : listStep kind ≤ d := by
      by_cases hk : ∃ o s, kind = .list o s
      · obtain ⟨o, s, rfl⟩ := hk
        have h3 : renderList r' (.mk (.list o s) cs) false = some (st, r'') := h
        obtain ⟨e1, _, _⟩ := renderList_exit r' r'' o s cs st h3
        have e2 : listStep (.list o s) = 1 := rfl
        rw [e2]
        rw [q1, p1] at e1
        omega
      · have hs : listStep kind = 0 := by
          cases kind <;> first | rfl | exact absurd ⟨_, _, rfl⟩ hk
        omega
    obtain ⟨c1, c2, c3⟩ :=
      renderNode_exit_depth r' r'' kind cs st h (by omega) (by omega)
    exact ⟨c1.symm, c2.symm, c3.symm⟩
  · intro kind hk
    cases kind <;> first | rfl | exact absurd rfl (hk _ _)

/-- Witness of C21: the first four events of the walk of a document that holds a
nested bullet list. -/
theorem C21_stack_depth_invariant_witness :
    (exampleAfterFourEvents.isOrdered.length : Int) = exampleAfterFourEvents.listLevel ∧
    (exampleAfterFourEvents.listNumbers.length : Int) = exampleAfterFourEvents.listLevel ∧
    0 ≤ exampleAfterFourEvents.listLevel :=
  have h := C21_stack_depth_invariant DefaultConfig exampleListDocument
    ((events exampleListDocument).take 4) exampleAfterFourEvents
    (List.take_prefix 4 _) (by decide!)
  ⟨h.2.1, h.2.2.1, h.2.2.2.1⟩

end Unidoc
